import Mathlib

/-!
A shallow embedding of the `EventBus` class of `listar/event-bus-common`
(source file `src/EventBus.ts`, types in `src/types.ts`), together with
theorems checking the natural-language specification against it.

Modelling conventions:
* A JavaScript function reference is modelled by a numeric `HandlerId`;
  reference equality (`===`) becomes equality of ids.
* The behaviour of handlers (whether a call throws synchronously, whether it
  returns a promise) is supplied to `emit` as an environment
  (`HandlerBehavior`); calls to the configured `onError` callback are
  collected in a `reports` list instead of invoking a function.
* `Map<string, …>` (which preserves key insertion order) is modelled as an
  association list; `Array.prototype.sort`, which is guaranteed stable, is
  modelled by Mathlib's stable `List.insertionSort` (any two stable sorts of
  the same list under the same total preorder agree).
* `Date.now()` is passed in as an explicit `ts : Nat` argument.
* The event payload type is a parameter `Data`; an omitted payload
  (`data?: T`) is `Option Data`.
-/

namespace EventBusCommon

/-! ### Definitions (embedding of the source) -/

/-- A JS function reference, compared by identity (`===`). -/
abbrev HandlerId := Nat

/-- The `EventPriority` enum of `types.ts`: numeric values, lower runs
earlier. -/
abbrev EventPriority := Nat

/-- Enum value `EventPriority.Critical = 0`. -/
def PCritical : EventPriority := 0

/-- Enum value `EventPriority.High = 1`. -/
def PHigh : EventPriority := 1

/-- Enum value `EventPriority.Normal = 2`. -/
def PNormal : EventPriority := 2

/-- Enum value `EventPriority.Low = 3`. -/
def PLow : EventPriority := 3

/-- The `EventFilter` interface of `types.ts`: optional predicates over the
event name, over `(name, data)`, over a timestamp, plus the unused generic
`filter` field. -/
structure EventFilter (Data : Type) where
  event : Option (String → Bool)
  data : Option (String → Option Data → Bool)
  timestamp : Option (Nat → Bool)
  filter : Option (String → Option Data → Bool)

/-- A record of a named bucket: `{ handler, priority, once }`. -/
structure HandlerRecord where
  handler : HandlerId
  priority : EventPriority
  once : Bool
deriving DecidableEq, Repr

/-- A wildcard record: `{ handler, priority, once, filter? }`. -/
structure WildcardRecord (Data : Type) where
  handler : HandlerId
  priority : EventPriority
  once : Bool
  filter : Option (EventFilter Data)

/-- One entry of `eventHistory`: `{ event, data, timestamp }`. -/
structure HistoryEntry (Data : Type) where
  event : String
  data : Option Data
  timestamp : Nat
deriving DecidableEq, Repr

/-- The resolved `Required<EventBusOptions>` minus the `onError` callback
(whose calls are collected as data in `EmitResult.reports`). -/
structure EventBusOptions where
  asyncEventHandling : Bool
  catchErrors : Bool
  allowEmptyEvents : Bool
  maxHistorySize : Nat
deriving DecidableEq, Repr

/-- The optional constructor options object (`EventBusOptions` of `types.ts`).
-/
structure OptionsInput where
  asyncEventHandling : Option Bool
  catchErrors : Option Bool
  allowEmptyEvents : Option Bool
  maxHistorySize : Option Nat
deriving DecidableEq, Repr

/-- The constructor's option resolution: `options.x !== false` for the three
booleans and `options.maxHistorySize || 1000` (so `0` is replaced by `1000`).
-/
def resolveOptions (inp : OptionsInput) : EventBusOptions where
  asyncEventHandling := inp.asyncEventHandling != some false
  catchErrors := inp.catchErrors != some false
  allowEmptyEvents := inp.allowEmptyEvents != some false
  maxHistorySize :=
    match inp.maxHistorySize with
    | some n => if n = 0 then 1000 else n
    | none => 1000

/-- All-defaults constructor input (`new EventBus()`). -/
def defaultInput : OptionsInput := ⟨none, none, none, none⟩

/-- The state of one `EventBus` instance. -/
structure EventBus (Data : Type) where
  handlers : List (String × List HandlerRecord)
  wildcardHandlers : List (WildcardRecord Data)
  options : EventBusOptions
  eventHistory : List (HistoryEntry Data)
  maxHistorySize : Nat

/-- Errors thrown by the bus: invalid name or handler, the empty-event policy
rejection, and a handler exception propagated out of `emit` (tagged with the
identity of the throwing handler). -/
inductive BusError where
  | invalidArgument
  | noSubscribers
  | handlerError (h : HandlerId)
deriving DecidableEq, Repr

/-- Model of `Map.has`. -/
def mapHas (m : List (String × β)) (k : String) : Bool :=
  m.any (fun p => p.1 == k)

/-- Model of `Map.get`: the binding of the first occurrence of the key. -/
def mapGet (m : List (String × β)) (k : String) : Option β :=
  match m with
  | [] => none
  | p :: rest => if p.1 == k then some p.2 else mapGet rest k

/-- Model of `Map.set`: replaces in place when the key exists, appends
otherwise (JS `Map` preserves key insertion order). -/
def mapSet (m : List (String × β)) (k : String) (v : β) : List (String × β) :=
  if mapHas m k then m.map (fun p => if p.1 == k then (k, v) else p)
  else m ++ [(k, v)]

/-- Model of `Map.delete`. -/
def mapDelete (m : List (String × β)) (k : String) : List (String × β) :=
  m.filter (fun p => p.1 != k)

/-- The `validateEventName` check: rejects `!eventName`, non-strings, and
`eventName.trim() === ''`. A string passes exactly when it contains at least
one non-whitespace character, that is, when its trim is non-empty. -/
def validEventName (s : String) : Bool :=
  s.toList.any (fun c => !c.isWhitespace)

/-- The `sortHandlersByPriority` helper on a named bucket: a stable sort by
`(a, b) => a.priority - b.priority` (JS `Array.prototype.sort` is stable; any
stable sort under the same total preorder gives the same list). -/
def sortHandlersByPriority (l : List HandlerRecord) : List HandlerRecord :=
  List.insertionSort (fun a b => a.priority ≤ b.priority) l

/-- The `sortHandlersByPriority` helper applied to the wildcard list. -/
def sortWildcardByPriority (l : List (WildcardRecord Data)) :
    List (WildcardRecord Data) :=
  List.insertionSort (fun a b => a.priority ≤ b.priority) l

/-- The `new EventBus(options)` constructor. -/
def mkEventBus (Data : Type) (inp : OptionsInput) : EventBus Data :=
  { handlers := []
    wildcardHandlers := []
    options := resolveOptions inp
    eventHistory := []
    maxHistorySize := (resolveOptions inp).maxHistorySize }

/-- The `on(eventName, handler, priority)` operation: validate, append a non-
once record to the bucket (creating it when absent), re-sort the bucket stably
by priority. -/
def subscribeOn (bus : EventBus Data) (name : String) (h : HandlerId)
    (p : EventPriority) : Except BusError (EventBus Data) :=
  if !validEventName name then .error .invalidArgument
  else
    let bucket := (mapGet bus.handlers name).getD []
    let bucket' := sortHandlersByPriority (bucket ++ [⟨h, p, false⟩])
    .ok { bus with handlers := mapSet bus.handlers name bucket' }

/-- The `once(eventName, handler, priority)` operation: as `on` but the record
is once-flagged. -/
def subscribeOnce (bus : EventBus Data) (name : String) (h : HandlerId)
    (p : EventPriority) : Except BusError (EventBus Data) :=
  if !validEventName name then .error .invalidArgument
  else
    let bucket := (mapGet bus.handlers name).getD []
    let bucket' := sortHandlersByPriority (bucket ++ [⟨h, p, true⟩])
    .ok { bus with handlers := mapSet bus.handlers name bucket' }

/-- The second argument of `onAny`: a bare priority number, a filter object,
or absent (the source dispatches on `typeof`). -/
inductive AnyOptions (Data : Type) where
  | noOpts
  | prio (p : EventPriority)
  | filt (f : EventFilter Data)

/-- The `onAny(handler, options)` operation: priority is the number when one
was passed, `Normal` otherwise; the filter is the object when one was passed.
The record is appended to the wildcard list, which is then stably re-sorted.
-/
def subscribeAny (bus : EventBus Data) (h : HandlerId) (opts : AnyOptions Data) :
    EventBus Data :=
  let priority := match opts with | .prio p => p | _ => PNormal
  let filt := match opts with | .filt f => some f | _ => none
  { bus with
    wildcardHandlers :=
      sortWildcardByPriority
        (bus.wildcardHandlers ++ [⟨h, priority, false, filt⟩]) }

/-- The `off(eventName, handler?)` operation: no bucket means no-op; no
handler drops the whole bucket; otherwise remove the first record with this
handler identity and delete the bucket key when the bucket is left empty. -/
def unsubscribe (bus : EventBus Data) (name : String) (h : Option HandlerId) :
    Except BusError (EventBus Data) :=
  if !validEventName name then .error .invalidArgument
  else
    match mapGet bus.handlers name with
    | none => .ok bus
    | some bucket =>
      match h with
      | none => .ok { bus with handlers := mapDelete bus.handlers name }
      | some hid =>
        let bucket' :=
          match bucket.findIdx? (fun r => r.handler == hid) with
          | some i => bucket.eraseIdx i
          | none => bucket
        if bucket'.isEmpty then
          .ok { bus with handlers := mapDelete bus.handlers name }
        else .ok { bus with handlers := mapSet bus.handlers name bucket' }

/-- The `unsubscribe` closure returned by `onAny`: removes the first wildcard
record with this handler identity. -/
def unsubscribeAny (bus : EventBus Data) (h : HandlerId) : EventBus Data :=
  match bus.wildcardHandlers.findIdx? (fun r => r.handler == h) with
  | some i => { bus with wildcardHandlers := bus.wildcardHandlers.eraseIdx i }
  | none => bus

/-- Filter evaluation during `emit`: `filter.event` first (short-circuits),
then `filter.data`; `filter.timestamp` and the generic field are not
consulted. -/
def filterPasses (f : Option (EventFilter Data)) (name : String)
    (d : Option Data) : Bool :=
  match f with
  | none => true
  | some flt =>
    ((flt.event.map (fun p => p name)).getD true) &&
    ((flt.data.map (fun p => p name d)).getD true)

/-- The observable behaviour of the (opaque) handler functions: whether a call
throws synchronously and whether its result is a `Promise`. Named handlers are
called as `handler(data)`, wildcard handlers with the wrapped
event-and-data object. -/
structure HandlerBehavior (Data : Type) where
  throwsOn : HandlerId → Option Data → Bool
  throwsOnAny : HandlerId → String → Option Data → Bool
  promiseOn : HandlerId → Option Data → Bool
  promiseOnAny : HandlerId → String → Option Data → Bool

/-- A behaviour in which no handler throws and none returns a promise. -/
def quietBehavior (Data : Type) : HandlerBehavior Data :=
  ⟨fun _ _ => false, fun _ _ _ => false, fun _ _ => false, fun _ _ _ => false⟩

/-- State threaded through one emit pass: the invocation trace, the `(handler,
eventName)` pairs forwarded to `onError`, the queued promises, the collected
once indices for both registries, and whether an exception escaped
(`catchErrors=false`). -/
structure PassState where
  trace : List HandlerId
  reports : List (HandlerId × String)
  promises : List HandlerId
  onceIdxs : List Nat
  wildOnceIdxs : List Nat
  aborted : Option HandlerId
deriving Repr

/-- The initial pass state. -/
def initialPass : PassState := ⟨[], [], [], [], [], none⟩

/-- The first loop of `emit`, over the cloned named bucket: collect the live
index of a once record, invoke the handler, and on a synchronous throw either
report to `onError` and continue (`catchErrors`) or abort the pass. -/
def runNamedHandlers (env : HandlerBehavior Data) (opts : EventBusOptions)
    (live : List HandlerRecord) (name : String) (d : Option Data) :
    List HandlerRecord → PassState → PassState
  | [], st => st
  | r :: rest, st =>
    let st1 :=
      if r.once then
        match live.findIdx? (fun x => x.handler == r.handler) with
        | some i => { st with onceIdxs := st.onceIdxs ++ [i] }
        | none => st
      else st
    let st2 := { st1 with trace := st1.trace ++ [r.handler] }
    if env.throwsOn r.handler d then
      if opts.catchErrors then
        runNamedHandlers env opts live name d rest
          { st2 with reports := st2.reports ++ [(r.handler, name)] }
      else { st2 with aborted := some r.handler }
    else
      let st3 :=
        if opts.asyncEventHandling && env.promiseOn r.handler d then
          { st2 with promises := st2.promises ++ [r.handler] }
        else st2
      runNamedHandlers env opts live name d rest st3

/-- The second loop of `emit`, over the cloned wildcard list: skip records
whose filter rejects `(name, data)`, otherwise proceed as in the named loop.
-/
def runWildcardHandlers (env : HandlerBehavior Data) (opts : EventBusOptions)
    (live : List (WildcardRecord Data)) (name : String) (d : Option Data) :
    List (WildcardRecord Data) → PassState → PassState
  | [], st => st
  | r :: rest, st =>
    if !filterPasses r.filter name d then
      runWildcardHandlers env opts live name d rest st
    else
      let st1 :=
        if r.once then
          match live.findIdx? (fun x => x.handler == r.handler) with
          | some i => { st with wildOnceIdxs := st.wildOnceIdxs ++ [i] }
          | none => st
        else st
      let st2 := { st1 with trace := st1.trace ++ [r.handler] }
      if env.throwsOnAny r.handler name d then
        if opts.catchErrors then
          runWildcardHandlers env opts live name d rest
            { st2 with reports := st2.reports ++ [(r.handler, name)] }
        else { st2 with aborted := some r.handler }
      else
        let st3 :=
          if opts.asyncEventHandling && env.promiseOnAny r.handler name d then
            { st2 with promises := st2.promises ++ [r.handler] }
          else st2
        runWildcardHandlers env opts live name d rest st3

/-- The private `recordEvent`: push the entry and drop the oldest entry when
the length now exceeds `maxHistorySize`. -/
def recordEvent (hist : List (HistoryEntry Data)) (maxH : Nat) (ev : String)
    (d : Option Data) (ts : Nat) : List (HistoryEntry Data) :=
  let pushed := hist ++ [⟨ev, d, ts⟩]
  if maxH < pushed.length then pushed.tail else pushed

/-- The once-pruning at the end of `emit`: sort the collected indices
descending (`(a, b) => b - a`) and splice each out. -/
def spliceDescending (l : List α) (idxs : List Nat) : List α :=
  (List.insertionSort (fun a b : Nat => b ≤ a) idxs).foldl
    (fun acc i => acc.eraseIdx i) l

/-- Everything `emit` produces: the post-state, the handler invocation trace,
the `(handler, eventName)` pairs given to `onError`, the queued promises, and
the exception (if any) thrown out of `emit`. -/
structure EmitResult (Data : Type) where
  bus : EventBus Data
  trace : List HandlerId
  reports : List (HandlerId × String)
  promises : List HandlerId
  error : Option BusError

/-- The `emit(eventName, data)` operation: validate the name, record the
history entry, apply the empty-event policy (which tests mere existence of
wildcard records, not their filters), run the two handler loops over cloned
lists, and finally prune once records from the live registries and delete the
bucket key when the bucket was emptied. An abort (`catchErrors=false` and a
throwing handler) skips everything after the loops. -/
def emit (env : HandlerBehavior Data) (bus : EventBus Data) (name : String)
    (d : Option Data) (ts : Nat) : EmitResult Data :=
  if !validEventName name then ⟨bus, [], [], [], some .invalidArgument⟩
  else
    let bus1 :=
      { bus with
        eventHistory :=
          recordEvent bus.eventHistory bus.maxHistorySize name d ts }
    let live := (mapGet bus1.handlers name).getD []
    if !bus1.options.allowEmptyEvents && live.isEmpty &&
        bus1.wildcardHandlers.isEmpty then
      ⟨bus1, [], [], [], some .noSubscribers⟩
    else
      let st1 := runNamedHandlers env bus1.options live name d live initialPass
      match st1.aborted with
      | some h => ⟨bus1, st1.trace, st1.reports, st1.promises,
          some (.handlerError h)⟩
      | none =>
        let st2 := runWildcardHandlers env bus1.options bus1.wildcardHandlers
          name d bus1.wildcardHandlers st1
        match st2.aborted with
        | some h => ⟨bus1, st2.trace, st2.reports, st2.promises,
            some (.handlerError h)⟩
        | none =>
          let prunedNamed := spliceDescending live st2.onceIdxs
          let prunedWild :=
            spliceDescending bus1.wildcardHandlers st2.wildOnceIdxs
          let handlers2 :=
            if mapHas bus1.handlers name then
              if prunedNamed.isEmpty then mapDelete bus1.handlers name
              else mapSet bus1.handlers name prunedNamed
            else bus1.handlers
          ⟨{ bus1 with handlers := handlers2, wildcardHandlers := prunedWild },
            st2.trace, st2.reports, st2.promises, none⟩

/-- The `listenerCount(eventName)` query. -/
def listenerCount (bus : EventBus Data) (name : String) :
    Except BusError Nat :=
  if !validEventName name then .error .invalidArgument
  else .ok ((mapGet bus.handlers name).getD []).length

/-- The `eventNames()` query. -/
def eventNames (bus : EventBus Data) : List String :=
  bus.handlers.map (fun p => p.1)

/-- The `wildcardListenerCount()` query. -/
def wildcardListenerCount (bus : EventBus Data) : Nat :=
  bus.wildcardHandlers.length

/-- The `hasListeners(eventName)` query: a non-empty bucket for this name, or
any wildcard record at all. -/
def hasListeners (bus : EventBus Data) (name : String) :
    Except BusError Bool :=
  if !validEventName name then .error .invalidArgument
  else
    .ok ((mapHas bus.handlers name &&
      ((mapGet bus.handlers name).getD []).length > 0) ||
      bus.wildcardHandlers.length > 0)

/-- The `clear()` operation. -/
def clearBus (bus : EventBus Data) : EventBus Data :=
  { bus with handlers := [], wildcardHandlers := [] }

/-- The `getHistory()` query. -/
def getHistory (bus : EventBus Data) : List (HistoryEntry Data) :=
  bus.eventHistory

/-- The `clearHistory()` operation. -/
def clearHistory (bus : EventBus Data) : EventBus Data :=
  { bus with eventHistory := [] }

/-- The `EventBusSnapshot` interface of `types.ts`. -/
structure EventBusSnapshot (Data : Type) where
  eventNames : List String
  listenerCounts : List (String × Nat)
  wildcardListenerCount : Nat
  history : List (HistoryEntry Data)
  options : EventBusOptions

/-- The `getSnapshot()` operation: names, per-name listener counts, the
wildcard count, a copy of the history and of the options. -/
def getSnapshot (bus : EventBus Data) : EventBusSnapshot Data :=
  { eventNames := bus.handlers.map (fun p => p.1)
    listenerCounts := bus.handlers.map (fun p => (p.1, p.2.length))
    wildcardListenerCount := bus.wildcardHandlers.length
    history := bus.eventHistory
    options := bus.options }

/-- The `restoreFromSnapshot(snapshot)` operation: `clear()`, install the
snapshot's options and history, then create an empty bucket for every name
whose recorded count is positive. No handler binding is restored, and the
`maxHistorySize` field is left as constructed. -/
def restoreFromSnapshot (bus : EventBus Data) (s : EventBusSnapshot Data) :
    EventBus Data :=
  let b := clearBus bus
  { b with
    options := s.options
    eventHistory := s.history
    handlers :=
      (s.listenerCounts.filter (fun p => 0 < p.2)).map
        (fun p => (p.1, ([] : List HandlerRecord))) }

/-- The once indices the named loop collects for a cloned list. -/
def namedOnceIdxs (live : List HandlerRecord) :
    List HandlerRecord → List Nat
  | [] => []
  | r :: rest =>
    (if r.once then
      (live.findIdx? (fun x => x.handler == r.handler)).toList
    else []) ++ namedOnceIdxs live rest

/-- The `(handler, eventName)` reports the named loop generates when every
throw is caught. -/
def namedReports (env : HandlerBehavior Data) (name : String) (d : Option Data)
    (rest : List HandlerRecord) : List (HandlerId × String) :=
  (rest.filter (fun r => env.throwsOn r.handler d)).map
    (fun r => (r.handler, name))

/-- The promises the named loop queues. -/
def namedPromises (env : HandlerBehavior Data) (opts : EventBusOptions)
    (d : Option Data) (rest : List HandlerRecord) : List HandlerId :=
  (rest.filter (fun r =>
    !env.throwsOn r.handler d &&
      (opts.asyncEventHandling && env.promiseOn r.handler d))).map
    (fun r => r.handler)

/-- The once indices the wildcard loop collects. -/
def wildOnceIdxsOf (name : String) (d : Option Data)
    (live : List (WildcardRecord Data)) :
    List (WildcardRecord Data) → List Nat
  | [] => []
  | r :: rest =>
    (if filterPasses r.filter name d && r.once then
      (live.findIdx? (fun x => x.handler == r.handler)).toList
    else []) ++ wildOnceIdxsOf name d live rest

/-- The reports the wildcard loop generates when every throw is caught. -/
def wildReports (env : HandlerBehavior Data) (name : String) (d : Option Data)
    (rest : List (WildcardRecord Data)) : List (HandlerId × String) :=
  ((rest.filter (fun r => filterPasses r.filter name d)).filter
    (fun r => env.throwsOnAny r.handler name d)).map
    (fun r => (r.handler, name))

/-- The promises the wildcard loop queues. -/
def wildPromises (env : HandlerBehavior Data) (opts : EventBusOptions)
    (name : String) (d : Option Data) (rest : List (WildcardRecord Data)) :
    List HandlerId :=
  ((rest.filter (fun r => filterPasses r.filter name d)).filter
    (fun r =>
      !env.throwsOnAny r.handler name d &&
        (opts.asyncEventHandling && env.promiseOnAny r.handler name d))).map
    (fun r => r.handler)

/-- The positions (counting from `i`) of the once-flagged records of a list.
-/
def oncePositionsFrom (i : Nat) : List HandlerRecord → List Nat
  | [] => []
  | r :: rest =>
    (if r.once then [i] else []) ++ oncePositionsFrom (i + 1) rest

/-- The states of one bus instance reachable through the public operations;
`ar` additionally admits `restoreFromSnapshot` of a snapshot taken in another
reachable state of the same instance. -/
inductive ReachableAux (Data : Type) (inp : OptionsInput) (ar : Bool) :
    EventBus Data → Prop where
  | init : ReachableAux Data inp ar (mkEventBus Data inp)
  | stepOn {b b' : EventBus Data} (name : String) (h : HandlerId)
      (p : EventPriority) : ReachableAux Data inp ar b →
      subscribeOn b name h p = .ok b' → ReachableAux Data inp ar b'
  | stepOnce {b b' : EventBus Data} (name : String) (h : HandlerId)
      (p : EventPriority) : ReachableAux Data inp ar b →
      subscribeOnce b name h p = .ok b' → ReachableAux Data inp ar b'
  | stepOnAny {b : EventBus Data} (h : HandlerId) (cfg : AnyOptions Data) :
      ReachableAux Data inp ar b →
      ReachableAux Data inp ar (subscribeAny b h cfg)
  | stepOff {b b' : EventBus Data} (name : String) (h : Option HandlerId) :
      ReachableAux Data inp ar b → unsubscribe b name h = .ok b' →
      ReachableAux Data inp ar b'
  | stepOffAny {b : EventBus Data} (h : HandlerId) :
      ReachableAux Data inp ar b →
      ReachableAux Data inp ar (unsubscribeAny b h)
  | stepEmit {b : EventBus Data} (env : HandlerBehavior Data) (name : String)
      (d : Option Data) (ts : Nat) : ReachableAux Data inp ar b →
      ReachableAux Data inp ar (emit env b name d ts).bus
  | stepClear {b : EventBus Data} : ReachableAux Data inp ar b →
      ReachableAux Data inp ar (clearBus b)
  | stepClearHistory {b : EventBus Data} : ReachableAux Data inp ar b →
      ReachableAux Data inp ar (clearHistory b)
  | stepRestore {b b' : EventBus Data} : ar = true →
      ReachableAux Data inp ar b → ReachableAux Data inp ar b' →
      ReachableAux Data inp ar (restoreFromSnapshot b (getSnapshot b'))

/-- Reachability with all public operations. -/
def Reachable (Data : Type) (inp : OptionsInput) (b : EventBus Data) : Prop :=
  ReachableAux Data inp true b

/-- Reachability through all public operations except `restoreFromSnapshot`.
-/
def ReachableNoRestore (Data : Type) (inp : OptionsInput)
    (b : EventBus Data) : Prop :=
  ReachableAux Data inp false b

instance : IsTotal HandlerRecord
    (fun a b : HandlerRecord => a.priority ≤ b.priority) :=
  ⟨fun a b => Nat.le_total a.priority b.priority⟩

instance : IsTrans HandlerRecord
    (fun a b : HandlerRecord => a.priority ≤ b.priority) :=
  ⟨fun _ _ _ h1 h2 => Nat.le_trans h1 h2⟩

instance : IsTotal (WildcardRecord Data)
    (fun a b : WildcardRecord Data => a.priority ≤ b.priority) :=
  ⟨fun a b => Nat.le_total a.priority b.priority⟩

instance : IsTrans (WildcardRecord Data)
    (fun a b : WildcardRecord Data => a.priority ≤ b.priority) :=
  ⟨fun _ _ _ h1 h2 => Nat.le_trans h1 h2⟩

/-- Unwrap a successful operation, with a fallback for the error case. -/
def okOr (e : Except BusError (EventBus Data)) (fb : EventBus Data) :
    EventBus Data :=
  match e with
  | .ok b => b
  | .error _ => fb

/-- A default-options bus over the trivial payload type. -/
def busU : EventBus Unit := mkEventBus Unit defaultInput

/-- The quiet behaviour over the trivial payload type. -/
def quietU : HandlerBehavior Unit := quietBehavior Unit

/-- A behaviour in which exactly the handler with identity 1 throws (in named
position). -/
def throwEnv : HandlerBehavior Unit :=
  ⟨fun h _ => h == 1, fun _ _ _ => false, fun _ _ => false, fun _ _ _ => false⟩

/-- A filter whose event predicate rejects every name. -/
def rejectAllFilter : EventFilter Unit :=
  ⟨some (fun _ => false), none, none, none⟩

/-- An `allowEmptyEvents=false` bus with a single wildcard subscriber whose
filter rejects everything. -/
def c1Bus : EventBus Unit :=
  subscribeAny (mkEventBus Unit ⟨none, none, some false, none⟩) 7
    (.filt rejectAllFilter)

/-- An `allowEmptyEvents=false` bus with no subscriptions at all. -/
def c1wBus : EventBus Unit := mkEventBus Unit ⟨none, none, some false, none⟩

/-- The bus after `on("e", handler 1)`. -/
def c2BusA : EventBus Unit := okOr (subscribeOn busU "e" 1 PNormal) busU

/-- The bus after `on("e", handler 1)` then `once("e", handler 1)` — two
records holding the same handler function. -/
def c2BusB : EventBus Unit := okOr (subscribeOnce c2BusA "e" 1 PNormal) c2BusA

/-- A single `once` subscription on a default bus. -/
def c2wBus : EventBus Unit := okOr (subscribeOnce busU "e" 1 PNormal) busU

/-- First of the four C3 subscriptions on `"t"`: priorities Low, High, Normal,
Critical in call order (handlers 1, 2, 3, 4). -/
def c3Bus1 : EventBus Unit := okOr (subscribeOn busU "t" 1 PLow) busU

/-- Second of the four C3 subscriptions. -/
def c3Bus2 : EventBus Unit := okOr (subscribeOn c3Bus1 "t" 2 PHigh) c3Bus1

/-- Third of the four C3 subscriptions. -/
def c3Bus3 : EventBus Unit := okOr (subscribeOn c3Bus2 "t" 3 PNormal) c3Bus2

/-- The C3 fixture bus. -/
def c3Bus : EventBus Unit := okOr (subscribeOn c3Bus3 "t" 4 PCritical) c3Bus3

/-- The priority `onAny` resolves from its second argument: the number when
one was passed, `Normal` otherwise (same dispatch as the source). -/
def anyPriority : AnyOptions Data → EventPriority
  | .prio p => p
  | _ => PNormal

/-- The filter `onAny` resolves from its second argument: the object when one
was passed (same dispatch as the source). -/
def anyFilter : AnyOptions Data → Option (EventFilter Data)
  | .filt f => some f
  | _ => none

/-- First of the four C3 tie-scenario subscriptions on `"t"`: handlers
1 (Normal), 2 (High), 3 (Normal), 4 (High) in that call order, so each
priority class holds two handlers whose relative order is fixed by insertion
alone. -/
def c3TieBus1 : EventBus Unit := okOr (subscribeOn busU "t" 1 PNormal) busU

/-- Second C3 tie-scenario subscription. -/
def c3TieBus2 : EventBus Unit := okOr (subscribeOn c3TieBus1 "t" 2 PHigh) c3TieBus1

/-- Third C3 tie-scenario subscription. -/
def c3TieBus3 : EventBus Unit := okOr (subscribeOn c3TieBus2 "t" 3 PNormal) c3TieBus2

/-- The C3 tie-scenario fixture bus. -/
def c3TieBus : EventBus Unit := okOr (subscribeOn c3TieBus3 "t" 4 PHigh) c3TieBus3

/-- A `catchErrors=false` bus with a single throwing `once` handler. -/
def c5Bus : EventBus Unit :=
  okOr (subscribeOnce (mkEventBus Unit ⟨none, some false, none, none⟩) "e" 1
    PNormal) (mkEventBus Unit ⟨none, some false, none, none⟩)

/-- A `catchErrors=false` bus with named handlers 1 (throwing) and 2. -/
def c4Bus : EventBus Unit :=
  okOr (subscribeOn (okOr (subscribeOn
    (mkEventBus Unit ⟨none, some false, none, none⟩) "e" 1 PNormal)
    (mkEventBus Unit ⟨none, some false, none, none⟩)) "e" 2 PNormal)
    (mkEventBus Unit ⟨none, some false, none, none⟩)

/-- A default-options (`catchErrors=true`) bus with named handlers 1
(throwing) and 2. -/
def c4cBus : EventBus Unit :=
  okOr (subscribeOn (okOr (subscribeOn busU "e" 1 PNormal) busU) "e" 2
    PNormal) busU

/-- A default-options bus with one rejecting-filter wildcard subscriber and no
named subscriptions. -/
def c10Bus : EventBus Unit := subscribeAny busU 9 (.filt rejectAllFilter)

/-- The C7 pre-restore bus: one subscription on `"a"`. -/
def c7Orig : EventBus Unit := okOr (subscribeOn busU "a" 1 PNormal) busU

/-- The bus restored from its own snapshot. -/
def c7Restored : EventBus Unit :=
  restoreFromSnapshot c7Orig (getSnapshot c7Orig)

/-- A sequence of `emit` calls (name, data, timestamp). -/
def emitSeq (env : HandlerBehavior Data) (b : EventBus Data) :
    List (String × Option Data × Nat) → EventBus Data
  | [] => b
  | e :: rest => emitSeq env (emit env b e.1 e.2.1 e.2.2).bus rest

/-! ### Theorems -/

/-- Closed form of the named loop when it completes: either every throw is
caught, or no handler in the remaining clone throws. -/
theorem runNamedHandlers_complete (env : HandlerBehavior Data)
    (opts : EventBusOptions) (live : List HandlerRecord) (name : String)
    (d : Option Data) (rest : List HandlerRecord) (st : PassState)
    (h : opts.catchErrors = true ∨
      ∀ r ∈ rest, env.throwsOn r.handler d = false) :
    runNamedHandlers env opts live name d rest st =
      { trace := st.trace ++ rest.map (fun r => r.handler)
        reports := st.reports ++ namedReports env name d rest
        promises := st.promises ++ namedPromises env opts d rest
        onceIdxs := st.onceIdxs ++ namedOnceIdxs live rest
        wildOnceIdxs := st.wildOnceIdxs
        aborted := st.aborted } := by
  induction rest generalizing st with
  | nil =>
    simp [runNamedHandlers, namedReports, namedPromises, namedOnceIdxs]
  | cons r rest ih =>
    have hrest : opts.catchErrors = true ∨
        ∀ x ∈ rest, env.throwsOn x.handler d = false := by
      rcases h with h | h
      · exact Or.inl h
      · exact Or.inr fun x hx => h x (List.mem_cons_of_mem _ hx)
    have ih' := fun st' => ih st' hrest
    by_cases hthrow : env.throwsOn r.handler d = true
    · have hcatch : opts.catchErrors = true := by
        rcases h with h | h
        · exact h
        · exact absurd (h r (List.mem_cons_self _ _)) (by simp [hthrow])
      by_cases honce : r.once
      · cases hfi : live.findIdx? (fun x => x.handler == r.handler) with
        | none =>
          simp [runNamedHandlers, ih', namedReports, namedPromises,
            namedOnceIdxs, honce, hfi, hthrow, hcatch]
        | some i =>
          simp [runNamedHandlers, ih', namedReports, namedPromises,
            namedOnceIdxs, honce, hfi, hthrow, hcatch]
      · simp [runNamedHandlers, ih', namedReports, namedPromises,
          namedOnceIdxs, honce, hthrow, hcatch]
    · have hthrow' : env.throwsOn r.handler d = false := by
        simpa using hthrow
      by_cases honce : r.once
      · cases hfi : live.findIdx? (fun x => x.handler == r.handler) with
        | none =>
          by_cases hp : (opts.asyncEventHandling &&
              env.promiseOn r.handler d) = true
          · simp [runNamedHandlers, ih', namedReports, namedPromises,
              namedOnceIdxs, honce, hfi, hthrow', hp]
          · simp [runNamedHandlers, ih', namedReports, namedPromises,
              namedOnceIdxs, honce, hfi, hthrow', hp]
        | some i =>
          by_cases hp : (opts.asyncEventHandling &&
              env.promiseOn r.handler d) = true
          · simp [runNamedHandlers, ih', namedReports, namedPromises,
              namedOnceIdxs, honce, hfi, hthrow', hp]
          · simp [runNamedHandlers, ih', namedReports, namedPromises,
              namedOnceIdxs, honce, hfi, hthrow', hp]
      · by_cases hp : (opts.asyncEventHandling &&
            env.promiseOn r.handler d) = true
        · simp [runNamedHandlers, ih', namedReports, namedPromises,
            namedOnceIdxs, honce, hthrow', hp]
        · simp [runNamedHandlers, ih', namedReports, namedPromises,
            namedOnceIdxs, honce, hthrow', hp]

/-- Closed form of the wildcard loop when it completes. -/
theorem runWildcardHandlers_complete (env : HandlerBehavior Data)
    (opts : EventBusOptions) (live : List (WildcardRecord Data))
    (name : String) (d : Option Data) (rest : List (WildcardRecord Data))
    (st : PassState)
    (h : opts.catchErrors = true ∨
      ∀ r ∈ rest, filterPasses r.filter name d = true →
        env.throwsOnAny r.handler name d = false) :
    runWildcardHandlers env opts live name d rest st =
      { trace := st.trace ++
          (rest.filter (fun r => filterPasses r.filter name d)).map
            (fun r => r.handler)
        reports := st.reports ++ wildReports env name d rest
        promises := st.promises ++ wildPromises env opts name d rest
        onceIdxs := st.onceIdxs
        wildOnceIdxs := st.wildOnceIdxs ++ wildOnceIdxsOf name d live rest
        aborted := st.aborted } := by
  induction rest generalizing st with
  | nil =>
    simp [runWildcardHandlers, wildReports, wildPromises, wildOnceIdxsOf]
  | cons r rest ih =>
    have hrest : opts.catchErrors = true ∨
        ∀ x ∈ rest, filterPasses x.filter name d = true →
          env.throwsOnAny x.handler name d = false := by
      rcases h with h | h
      · exact Or.inl h
      · exact Or.inr fun x hx => h x (List.mem_cons_of_mem _ hx)
    have ih' := fun st' => ih st' hrest
    by_cases hpass : filterPasses r.filter name d = true
    · by_cases hthrow : env.throwsOnAny r.handler name d = true
      · have hcatch : opts.catchErrors = true := by
          rcases h with h | h
          · exact h
          · exact absurd (h r (List.mem_cons_self _ _) hpass)
              (by simp [hthrow])
        by_cases honce : r.once
        · cases hfi : live.findIdx? (fun x => x.handler == r.handler) with
          | none =>
            simp [runWildcardHandlers, ih', wildReports, wildPromises,
              wildOnceIdxsOf, honce, hpass, hfi, hthrow, hcatch]
          | some i =>
            simp [runWildcardHandlers, ih', wildReports, wildPromises,
              wildOnceIdxsOf, honce, hpass, hfi, hthrow, hcatch]
        · simp [runWildcardHandlers, ih', wildReports, wildPromises,
            wildOnceIdxsOf, honce, hpass, hthrow, hcatch]
      · have hthrow' : env.throwsOnAny r.handler name d = false := by
          simpa using hthrow
        by_cases honce : r.once
        · cases hfi : live.findIdx? (fun x => x.handler == r.handler) with
          | none =>
            by_cases hp : (opts.asyncEventHandling &&
                env.promiseOnAny r.handler name d) = true
            · simp [runWildcardHandlers, ih', wildReports, wildPromises,
                wildOnceIdxsOf, honce, hpass, hfi, hthrow', hp]
            · simp [runWildcardHandlers, ih', wildReports, wildPromises,
                wildOnceIdxsOf, honce, hpass, hfi, hthrow', hp]
          | some i =>
            by_cases hp : (opts.asyncEventHandling &&
                env.promiseOnAny r.handler name d) = true
            · simp [runWildcardHandlers, ih', wildReports, wildPromises,
                wildOnceIdxsOf, honce, hpass, hfi, hthrow', hp]
            · simp [runWildcardHandlers, ih', wildReports, wildPromises,
                wildOnceIdxsOf, honce, hpass, hfi, hthrow', hp]
        · by_cases hp : (opts.asyncEventHandling &&
              env.promiseOnAny r.handler name d) = true
          · simp [runWildcardHandlers, ih', wildReports, wildPromises,
              wildOnceIdxsOf, honce, hpass, hthrow', hp]
          · simp [runWildcardHandlers, ih', wildReports, wildPromises,
              wildOnceIdxsOf, honce, hpass, hthrow', hp]
    · have hpass' : filterPasses r.filter name d = false := by
        simpa using hpass
      simp [runWildcardHandlers, ih', wildReports, wildPromises,
        wildOnceIdxsOf, hpass']

/-- If the named loop returns without an abort mark, either every throw was
caught or no handler in the clone threw. -/
theorem runNamedHandlers_aborted_none (env : HandlerBehavior Data)
    (opts : EventBusOptions) (live : List HandlerRecord) (name : String)
    (d : Option Data) (rest : List HandlerRecord) (st : PassState)
    (h : (runNamedHandlers env opts live name d rest st).aborted = none) :
    opts.catchErrors = true ∨
      ∀ r ∈ rest, env.throwsOn r.handler d = false := by
  induction rest generalizing st with
  | nil => by_cases hc : opts.catchErrors = true
            <;> simp_all [runNamedHandlers]
  | cons r rest ih =>
    by_cases hthrow : env.throwsOn r.handler d = true
    · by_cases hcatch : opts.catchErrors = true
      · exact Or.inl hcatch
      · exfalso
        by_cases honce : r.once
        · cases hfi : live.findIdx? (fun x => x.handler == r.handler) with
          | none => simp [runNamedHandlers, honce, hfi, hthrow, hcatch] at h
          | some i => simp [runNamedHandlers, honce, hfi, hthrow, hcatch] at h
        · simp [runNamedHandlers, honce, hthrow, hcatch] at h
    · have hthrow' : env.throwsOn r.handler d = false := by simpa using hthrow
      have hnext : ∃ st', runNamedHandlers env opts live name d rest st' =
          runNamedHandlers env opts live name d (r :: rest) st := by
        by_cases honce : r.once
        · cases hfi : live.findIdx? (fun x => x.handler == r.handler) with
          | none =>
            by_cases hp : (opts.asyncEventHandling &&
                env.promiseOn r.handler d) = true
            · exact ⟨_, by simp [runNamedHandlers, honce, hfi, hthrow', hp] <;> rfl⟩
            · exact ⟨_, by simp [runNamedHandlers, honce, hfi, hthrow', hp] <;> rfl⟩
          | some i =>
            by_cases hp : (opts.asyncEventHandling &&
                env.promiseOn r.handler d) = true
            · exact ⟨_, by simp [runNamedHandlers, honce, hfi, hthrow', hp] <;> rfl⟩
            · exact ⟨_, by simp [runNamedHandlers, honce, hfi, hthrow', hp] <;> rfl⟩
        · by_cases hp : (opts.asyncEventHandling &&
              env.promiseOn r.handler d) = true
          · exact ⟨_, by simp [runNamedHandlers, honce, hthrow', hp] <;> rfl⟩
          · exact ⟨_, by simp [runNamedHandlers, honce, hthrow', hp] <;> rfl⟩
      obtain ⟨st', hst'⟩ := hnext
      have := ih st' (by rw [hst']; exact h)
      rcases this with hc | hall
      · exact Or.inl hc
      · exact Or.inr fun x hx => by
          rcases List.mem_cons.mp hx with rfl | hx
          · exact hthrow'
          · exact hall x hx

/-- If the wildcard loop returns without an abort mark, either every throw was
caught or no matching handler in the clone threw. -/
theorem runWildcardHandlers_aborted_none (env : HandlerBehavior Data)
    (opts : EventBusOptions) (live : List (WildcardRecord Data))
    (name : String) (d : Option Data) (rest : List (WildcardRecord Data))
    (st : PassState)
    (h : (runWildcardHandlers env opts live name d rest st).aborted = none) :
    opts.catchErrors = true ∨
      ∀ r ∈ rest, filterPasses r.filter name d = true →
        env.throwsOnAny r.handler name d = false := by
  induction rest generalizing st with
  | nil => by_cases hc : opts.catchErrors = true
            <;> simp_all [runWildcardHandlers]
  | cons r rest ih =>
    by_cases hpass : filterPasses r.filter name d = true
    · by_cases hthrow : env.throwsOnAny r.handler name d = true
      · by_cases hcatch : opts.catchErrors = true
        · exact Or.inl hcatch
        · exfalso
          by_cases honce : r.once
          · cases hfi : live.findIdx? (fun x => x.handler == r.handler) with
            | none =>
              simp [runWildcardHandlers, honce, hpass, hfi, hthrow,
                hcatch] at h
            | some i =>
              simp [runWildcardHandlers, honce, hpass, hfi, hthrow,
                hcatch] at h
          · simp [runWildcardHandlers, honce, hpass, hthrow, hcatch] at h
      · have hthrow' : env.throwsOnAny r.handler name d = false := by
          simpa using hthrow
        have hnext : ∃ st',
            runWildcardHandlers env opts live name d rest st' =
              runWildcardHandlers env opts live name d (r :: rest) st := by
          by_cases honce : r.once
          · cases hfi : live.findIdx? (fun x => x.handler == r.handler) with
            | none =>
              by_cases hp : (opts.asyncEventHandling &&
                  env.promiseOnAny r.handler name d) = true
              · exact ⟨_, by
                  simp [runWildcardHandlers, honce, hpass, hfi, hthrow', hp]
                    <;> rfl⟩
              · exact ⟨_, by
                  simp [runWildcardHandlers, honce, hpass, hfi, hthrow', hp]
                    <;> rfl⟩
            | some i =>
              by_cases hp : (opts.asyncEventHandling &&
                  env.promiseOnAny r.handler name d) = true
              · exact ⟨_, by
                  simp [runWildcardHandlers, honce, hpass, hfi, hthrow', hp]
                    <;> rfl⟩
              · exact ⟨_, by
                  simp [runWildcardHandlers, honce, hpass, hfi, hthrow', hp]
                    <;> rfl⟩
          · by_cases hp : (opts.asyncEventHandling &&
                env.promiseOnAny r.handler name d) = true
            · exact ⟨_, by
                simp [runWildcardHandlers, honce, hpass, hthrow', hp]
                  <;> rfl⟩
            · exact ⟨_, by
                simp [runWildcardHandlers, honce, hpass, hthrow', hp]
                  <;> rfl⟩
        obtain ⟨st', hst'⟩ := hnext
        have := ih st' (by rw [hst']; exact h)
        rcases this with hc | hall
        · exact Or.inl hc
        · exact Or.inr fun x hx hxp => by
            rcases List.mem_cons.mp hx with rfl | hx
            · exact hthrow'
            · exact hall x hx hxp
    · have hpass' : filterPasses r.filter name d = false := by
        simpa using hpass
      have hstep : runWildcardHandlers env opts live name d (r :: rest) st =
          runWildcardHandlers env opts live name d rest st := by
        simp [runWildcardHandlers, hpass']
      have := ih st (by rw [← hstep]; exact h)
      rcases this with hc | hall
      · exact Or.inl hc
      · exact Or.inr fun x hx hxp => by
          rcases List.mem_cons.mp hx with rfl | hx
          · exact absurd hxp (by simp [hpass'])
          · exact hall x hx hxp

/-- Under pairwise-distinct handler identities, the indices the named loop
collects for the suffix `suf` of the live bucket are exactly the positions of
its once records. -/
theorem namedOnceIdxs_eq_positions (pre suf : List HandlerRecord)
    (hdist : (pre ++ suf).Pairwise (fun a b => a.handler ≠ b.handler)) :
    namedOnceIdxs (pre ++ suf) suf = oncePositionsFrom pre.length suf := by
  induction suf generalizing pre with
  | nil => simp [namedOnceIdxs, oncePositionsFrom]
  | cons r rest ih =>
    have hpre : List.findIdx? (fun x => x.handler == r.handler) pre = none := by
      rw [List.findIdx?_eq_none_iff]
      intro x hx
      have := (List.pairwise_append.mp hdist).2.2 x hx r
        (List.mem_cons_self _ _)
      simpa using this
    have hfind : List.findIdx? (fun x => x.handler == r.handler)
        (pre ++ r :: rest) = some pre.length := by
      rw [List.findIdx?_append, hpre]
      simp [List.findIdx?_cons]
    have hd2 : ((pre ++ [r]) ++ rest).Pairwise
        (fun a b => a.handler ≠ b.handler) := by
      simpa [List.append_assoc] using hdist
    have ih' := ih (pre ++ [r]) hd2
    simp only [List.append_assoc, List.singleton_append] at ih'
    simp only [namedOnceIdxs, oncePositionsFrom, hfind, ih']
    simp [List.length_append]

/-- Every collected position for the suffix starting at `i` is at least `i`.
-/
theorem oncePositionsFrom_ge (l : List HandlerRecord) (i j : Nat)
    (hj : j ∈ oncePositionsFrom i l) : i ≤ j := by
  induction l generalizing i with
  | nil => simp [oncePositionsFrom] at hj
  | cons r rest ih =>
    simp only [oncePositionsFrom, List.mem_append] at hj
    rcases hj with hj | hj
    · by_cases ho : r.once = true
      · simp [ho] at hj
        omega
      · simp [ho] at hj
    · exact Nat.le_of_succ_le (ih (i + 1) hj)

/-- The collected positions are strictly increasing. -/
theorem oncePositionsFrom_sorted (l : List HandlerRecord) (i : Nat) :
    List.Sorted (· < ·) (oncePositionsFrom i l) := by
  induction l generalizing i with
  | nil => simp [oncePositionsFrom]
  | cons r rest ih =>
    by_cases ho : r.once = true
    · simp only [oncePositionsFrom, ho, if_true, List.singleton_append]
      exact List.sorted_cons.mpr
        ⟨fun j hj => Nat.lt_of_lt_of_le (Nat.lt_succ_self i)
          (oncePositionsFrom_ge rest (i + 1) j hj), ih (i + 1)⟩
    · simpa [oncePositionsFrom, ho] using ih (i + 1)

/-- Sorting a strictly increasing list of naturals descending reverses it. -/
theorem insertionSort_ge_eq_reverse (l : List Nat)
    (h : List.Sorted (· < ·) l) :
    List.insertionSort (fun a b : Nat => b ≤ a) l = l.reverse := by
  have hanti : IsAntisymm Nat (fun a b : Nat => b ≤ a) :=
    ⟨fun a b h1 h2 => Nat.le_antisymm h2 h1⟩
  have htot : IsTotal Nat (fun a b : Nat => b ≤ a) :=
    ⟨fun a b => Nat.le_total b a⟩
  have htr : IsTrans Nat (fun a b : Nat => b ≤ a) :=
    ⟨fun _ _ _ h1 h2 => Nat.le_trans h2 h1⟩
  have hperm : (List.insertionSort (fun a b : Nat => b ≤ a) l).Perm
      l.reverse :=
    (List.perm_insertionSort _ l).trans l.reverse_perm.symm
  have hs1 : List.Sorted (fun a b : Nat => b ≤ a)
      (List.insertionSort (fun a b : Nat => b ≤ a) l) :=
    List.sorted_insertionSort _ l
  have hs2 : List.Sorted (fun a b : Nat => b ≤ a) l.reverse := by
    rw [List.Sorted, List.pairwise_reverse]
    exact h.imp (fun hab => Nat.le_of_lt hab)
  exact List.eq_of_perm_of_sorted hperm hs1 hs2

/-- Shifting the positions by one skips the head of the spliced list. -/
theorem foldl_eraseIdx_shift (idxs : List Nat) (x : α) (xs : List α) :
    (idxs.map (· + 1)).foldl (fun acc i => acc.eraseIdx i) (x :: xs) =
      x :: idxs.foldl (fun acc i => acc.eraseIdx i) xs := by
  induction idxs generalizing xs with
  | nil => rfl
  | cons i rest ih => simpa [List.eraseIdx] using ih (xs.eraseIdx i)

/-- Collecting from `i + 1` is collecting from `i`, shifted. -/
theorem oncePositionsFrom_shift (l : List HandlerRecord) (i : Nat) :
    oncePositionsFrom (i + 1) l = (oncePositionsFrom i l).map (· + 1) := by
  induction l generalizing i with
  | nil => rfl
  | cons r rest ih =>
    rcases Bool.eq_false_or_eq_true r.once with ho | ho <;>
      simp [oncePositionsFrom, ho, ih (i + 1)]

/-- Splicing out the once positions back-to-front removes exactly the once
records. -/
theorem foldl_eraseIdx_reverse_positions (l : List HandlerRecord) :
    ((oncePositionsFrom 0 l).reverse).foldl (fun acc i => acc.eraseIdx i) l =
      l.filter (fun r => !r.once) := by
  induction l with
  | nil => rfl
  | cons x xs ih =>
    have hsplit : oncePositionsFrom 0 (x :: xs) =
        (if x.once then [0] else []) ++
          (oncePositionsFrom 0 xs).map (· + 1) := by
      simp [oncePositionsFrom, oncePositionsFrom_shift]
    by_cases ho : x.once = true
    · rw [hsplit]
      simp only [ho, if_true, List.reverse_append, List.reverse_cons,
        List.reverse_nil, List.nil_append]
      rw [List.foldl_append, ← List.map_reverse, foldl_eraseIdx_shift, ih]
      simp [ho, List.eraseIdx]
    · rw [hsplit]
      have hif : (if x.once = true then [0] else ([] : List Nat)) = [] := by
        simp [ho]
      rw [hif, List.nil_append, ← List.map_reverse, foldl_eraseIdx_shift, ih]
      simp [ho]

/-- Under pairwise-distinct handler identities, the end-of-pass splice leaves
exactly the non-once records of the bucket. -/
theorem spliceDescending_named_eq_filter (l : List HandlerRecord)
    (hdist : l.Pairwise (fun a b => a.handler ≠ b.handler)) :
    spliceDescending l (namedOnceIdxs l l) = l.filter (fun r => !r.once) := by
  have hpos : namedOnceIdxs l l = oncePositionsFrom 0 l := by
    have := namedOnceIdxs_eq_positions [] l (by simpa using hdist)
    simpa using this
  rw [spliceDescending, hpos,
    insertionSort_ge_eq_reverse _ (oncePositionsFrom_sorted l 0),
    foldl_eraseIdx_reverse_positions]

/-- A key that is not present has no binding. -/
theorem mapGet_eq_none_of_not_has (m : List (String × β)) (k : String)
    (h : mapHas m k = false) : mapGet m k = none := by
  induction m with
  | nil => rfl
  | cons p rest ih =>
    simp only [mapHas, List.any_cons, Bool.or_eq_false_iff] at h
    simp only [mapGet, h.1, Bool.false_eq_true, if_false]
    exact ih (by simp [mapHas, h.2])

/-- After `set`, the key maps to the new value. -/
theorem mapGet_mapSet_self (m : List (String × β)) (k : String) (v : β) :
    mapGet (mapSet m k v) k = some v := by
  by_cases h : mapHas m k = true
  · simp only [mapSet, h, if_true]
    induction m with
    | nil => simp [mapHas] at h
    | cons p rest ih =>
      by_cases hp : (p.1 == k) = true
      · simp [mapGet, hp]
      · have hrest : mapHas rest k = true := by
          simpa [mapHas, hp] using h
        simpa [mapGet, hp] using ih hrest
  · have h' : mapHas m k = false := by simpa using h
    simp only [mapSet, h', Bool.false_eq_true, if_false]
    induction m with
    | nil => simp [mapGet]
    | cons p rest ih =>
      simp only [mapHas, List.any_cons, Bool.or_eq_false_iff] at h'
      simp only [List.cons_append, mapGet, h'.1, Bool.false_eq_true,
        if_false]
      exact ih (by simp [mapHas, h'.2]) h'.2

/-- After `delete`, the key has no binding. -/
theorem mapGet_mapDelete_self (m : List (String × β)) (k : String) :
    mapGet (mapDelete m k) k = none := by
  induction m with
  | nil => rfl
  | cons p rest ih =>
    by_cases hp : (p.1 == k) = true
    · have hne : (p.1 != k) = false := by simp [bne, hp]
      simpa [mapDelete, List.filter_cons, hne] using ih
    · have hne : (p.1 != k) = true := by simp [bne, hp]
      simpa [mapDelete, mapGet, List.filter_cons, hne, hp] using ih

/-- Every binding after `set` is an old binding or the new one. -/
theorem mem_mapSet (m : List (String × β)) (k : String) (v : β)
    (n : String) (b : β) (h : (n, b) ∈ mapSet m k v) :
    (n, b) ∈ m ∨ (n = k ∧ b = v) := by
  by_cases hh : mapHas m k = true
  · simp only [mapSet, hh, if_true] at h
    obtain ⟨p, hp, hpe⟩ := List.mem_map.mp h
    by_cases hk : p.1 == k
    · simp only [hk, if_true] at hpe
      exact Or.inr ⟨congrArg Prod.fst hpe.symm, congrArg Prod.snd hpe.symm⟩
    · simp only [hk, Bool.false_eq_true, if_false] at hpe
      exact Or.inl (hpe ▸ hp)
  · have h' : mapHas m k = false := by simpa using hh
    simp only [mapSet, h', Bool.false_eq_true, if_false,
      List.mem_append] at h
    rcases h with h | h
    · exact Or.inl h
    · simp only [List.mem_singleton, Prod.mk.injEq] at h
      exact Or.inr h

/-- Every binding after `delete` is an old binding. -/
theorem mem_mapDelete (m : List (String × β)) (k : String)
    (n : String) (b : β) (h : (n, b) ∈ mapDelete m k) : (n, b) ∈ m :=
  List.mem_of_mem_filter h

/-- A found binding is a member. -/
theorem mapGet_mem (m : List (String × β)) (k : String) (b : β)
    (h : mapGet m k = some b) : (k, b) ∈ m := by
  induction m with
  | nil => simp [mapGet] at h
  | cons p rest ih =>
    by_cases hp : (p.1 == k) = true
    · simp only [mapGet, hp, if_true, Option.some.injEq] at h
      have hk : p.1 = k := by simpa using hp
      have : p = (k, b) := by
        cases p
        simp_all
      simp [this]
    · simp only [mapGet, hp, Bool.false_eq_true, if_false] at h
      exact List.mem_cons_of_mem _ (ih h)

/-- An invalid name makes `emit` throw `InvalidArgument` before touching
anything. -/
theorem emit_invalid (env : HandlerBehavior Data) (bus : EventBus Data)
    (name : String) (d : Option Data) (ts : Nat)
    (h : validEventName name = false) :
    emit env bus name d ts = ⟨bus, [], [], [], some .invalidArgument⟩ := by
  simp [emit, h]

/-- With a valid name the history entry is recorded no matter how the pass
ends. -/
theorem emit_history (env : HandlerBehavior Data) (bus : EventBus Data)
    (name : String) (d : Option Data) (ts : Nat)
    (h : validEventName name = true) :
    (emit env bus name d ts).bus.eventHistory =
      recordEvent bus.eventHistory bus.maxHistorySize name d ts := by
  simp only [emit, h, Bool.not_true, Bool.false_eq_true, if_false]
  split
  · rfl
  · split
    · rfl
    · split
      · rfl
      · rfl

/-- The options are never changed by `emit`. -/
theorem emit_options (env : HandlerBehavior Data) (bus : EventBus Data)
    (name : String) (d : Option Data) (ts : Nat) :
    (emit env bus name d ts).bus.options = bus.options := by
  by_cases h : validEventName name = true
  · simp only [emit, h, Bool.not_true, Bool.false_eq_true, if_false]
    split
    · rfl
    · split
      · rfl
      · split
        · rfl
        · rfl
  · simp [emit_invalid env bus name d ts (by simpa using h)]

/-- The `maxHistorySize` field is never changed by `emit`. -/
theorem emit_maxHistorySize (env : HandlerBehavior Data)
    (bus : EventBus Data) (name : String) (d : Option Data) (ts : Nat) :
    (emit env bus name d ts).bus.maxHistorySize = bus.maxHistorySize := by
  by_cases h : validEventName name = true
  · simp only [emit, h, Bool.not_true, Bool.false_eq_true, if_false]
    split
    · rfl
    · split
      · rfl
      · split
        · rfl
        · rfl
  · simp [emit_invalid env bus name d ts (by simpa using h)]

/-- When a handler exception escapes (`catchErrors=false`), `emit` leaves both
registries exactly as they were — no once record is pruned — while the history
entry recorded up front stands. -/
theorem emit_abort_state (env : HandlerBehavior Data) (bus : EventBus Data)
    (name : String) (d : Option Data) (ts : Nat) (hid : HandlerId)
    (h : (emit env bus name d ts).error = some (.handlerError hid)) :
    (emit env bus name d ts).bus.handlers = bus.handlers ∧
    (emit env bus name d ts).bus.wildcardHandlers = bus.wildcardHandlers ∧
    (emit env bus name d ts).bus.eventHistory =
      recordEvent bus.eventHistory bus.maxHistorySize name d ts := by
  by_cases hv : validEventName name = true
  · refine ⟨?_, ?_, emit_history env bus name d ts hv⟩ <;>
    · simp only [emit, hv, Bool.not_true, Bool.false_eq_true, if_false]
      split
      · simp only [emit, hv, Bool.not_true, Bool.false_eq_true,
          if_false] at h
        split at h
        · simp at h
        · rfl
      · split
        · rfl
        · split
          · rfl
          · exfalso
            simp only [emit, hv, Bool.not_true, Bool.false_eq_true,
              if_false] at h
            split at h
            · simp at h
            · split at h
              · simp_all
              · split at h
                · simp_all
                · simp at h
  · exfalso
    have := emit_invalid env bus name d ts (by simpa using hv)
    rw [this] at h
    simp at h

/-- One unfolding of `emit` on a valid name (the record step only changes the
history field, so lookups against the recorded state and the original agree
definitionally). -/
theorem emit_unfold_valid (env : HandlerBehavior Data) (bus : EventBus Data)
    (name : String) (d : Option Data) (ts : Nat)
    (hvalid : validEventName name = true) :
    emit env bus name d ts =
      (let bus1 : EventBus Data :=
        { bus with eventHistory :=
            recordEvent bus.eventHistory bus.maxHistorySize name d ts }
      let live := (mapGet bus.handlers name).getD []
      if !bus.options.allowEmptyEvents && live.isEmpty &&
          bus.wildcardHandlers.isEmpty then
        ⟨bus1, [], [], [], some .noSubscribers⟩
      else
        let st1 := runNamedHandlers env bus.options live name d live
          initialPass
        match st1.aborted with
        | some h => ⟨bus1, st1.trace, st1.reports, st1.promises,
            some (.handlerError h)⟩
        | none =>
          let st2 := runWildcardHandlers env bus.options bus.wildcardHandlers
            name d bus.wildcardHandlers st1
          match st2.aborted with
          | some h => ⟨bus1, st2.trace, st2.reports, st2.promises,
              some (.handlerError h)⟩
          | none =>
            let prunedNamed := spliceDescending live st2.onceIdxs
            let prunedWild :=
              spliceDescending bus.wildcardHandlers st2.wildOnceIdxs
            let handlers2 :=
              if mapHas bus.handlers name then
                if prunedNamed.isEmpty then mapDelete bus.handlers name
                else mapSet bus.handlers name prunedNamed
              else bus.handlers
            let busF : EventBus Data :=
              { bus1 with
                handlers := handlers2
                wildcardHandlers := prunedWild }
            ⟨busF, st2.trace, st2.reports, st2.promises, none⟩) := by
  simp only [emit, hvalid, Bool.not_true, Bool.false_eq_true, if_false]

/-- Full characterization of an `emit` pass that does not abort: the trace is
the named bucket followed by the matching wildcards, the reports are the
throwing handlers of both segments in order, the only possible error is
`NoSubscribers`, and the post-state bucket is the bucket with the collected
once indices spliced out. -/
theorem emit_complete_spec (env : HandlerBehavior Data) (bus : EventBus Data)
    (name : String) (d : Option Data) (ts : Nat)
    (hvalid : validEventName name = true)
    (hcomplete : bus.options.catchErrors = true ∨
      (emit env bus name d ts).error = none) :
    (emit env bus name d ts).trace =
      ((mapGet bus.handlers name).getD []).map (fun r => r.handler) ++
        (bus.wildcardHandlers.filter
          (fun r => filterPasses r.filter name d)).map (fun r => r.handler) ∧
    (emit env bus name d ts).reports =
      namedReports env name d ((mapGet bus.handlers name).getD []) ++
        wildReports env name d bus.wildcardHandlers ∧
    ((emit env bus name d ts).error = none ∨
      (emit env bus name d ts).error = some .noSubscribers) ∧
    (mapGet (emit env bus name d ts).bus.handlers name).getD [] =
      spliceDescending ((mapGet bus.handlers name).getD [])
        (namedOnceIdxs ((mapGet bus.handlers name).getD [])
          ((mapGet bus.handlers name).getD [])) := by
  rw [emit_unfold_valid env bus name d ts hvalid] at hcomplete ⊢
  by_cases hns : (!bus.options.allowEmptyEvents &&
      ((mapGet bus.handlers name).getD []).isEmpty &&
      bus.wildcardHandlers.isEmpty) = true
  · have hl : (mapGet bus.handlers name).getD [] = [] := by
      have := (Bool.and_eq_true _ _).mp hns
      exact List.isEmpty_iff.mp ((Bool.and_eq_true _ _).mp this.1).2
    have hw : bus.wildcardHandlers = [] :=
      List.isEmpty_iff.mp ((Bool.and_eq_true _ _).mp hns).2
    simp only [hns, if_true]
    refine ⟨?_, ?_, by simp, ?_⟩
    · simp [hl, hw]
    · simp [hl, hw, namedReports, wildReports]
    · simp [hl, namedOnceIdxs, spliceDescending]
  · simp only [hns, Bool.false_eq_true, if_false] at hcomplete ⊢
    cases hst1 : (runNamedHandlers env bus.options
        ((mapGet bus.handlers name).getD []) name d
        ((mapGet bus.handlers name).getD []) initialPass).aborted with
    | some h =>
      exfalso
      rcases hcomplete with hc | he
      · have := runNamedHandlers_complete env bus.options
          ((mapGet bus.handlers name).getD []) name d
          ((mapGet bus.handlers name).getD []) initialPass (Or.inl hc)
        rw [this] at hst1
        simp [initialPass] at hst1
      · rw [hst1] at he
        simp at he
    | none =>
      have hcd := runNamedHandlers_aborted_none env bus.options
        ((mapGet bus.handlers name).getD []) name d
        ((mapGet bus.handlers name).getD []) initialPass hst1
      have hst1eq := runNamedHandlers_complete env bus.options
        ((mapGet bus.handlers name).getD []) name d
        ((mapGet bus.handlers name).getD []) initialPass hcd
      cases hst2 : (runWildcardHandlers env bus.options bus.wildcardHandlers
          name d bus.wildcardHandlers
          (runNamedHandlers env bus.options
            ((mapGet bus.handlers name).getD []) name d
            ((mapGet bus.handlers name).getD []) initialPass)).aborted with
      | some h =>
        exfalso
        rcases hcomplete with hc | he
        · have := runWildcardHandlers_complete env bus.options
            bus.wildcardHandlers name d bus.wildcardHandlers
            (runNamedHandlers env bus.options
              ((mapGet bus.handlers name).getD []) name d
              ((mapGet bus.handlers name).getD []) initialPass) (Or.inl hc)
          rw [this] at hst2
          simp only at hst2
          rw [hst1] at hst2
          simp at hst2
        · rw [hst1] at he
          simp only at he
          rw [hst2] at he
          simp at he
      | none =>
        have hwd := runWildcardHandlers_aborted_none env bus.options
          bus.wildcardHandlers name d bus.wildcardHandlers _ hst2
        have hst2eq := runWildcardHandlers_complete env bus.options
          bus.wildcardHandlers name d bus.wildcardHandlers
          (runNamedHandlers env bus.options
            ((mapGet bus.handlers name).getD []) name d
            ((mapGet bus.handlers name).getD []) initialPass) hwd
        simp only [hst1, hst2]
        rw [hst2eq, hst1eq]
        refine ⟨by simp [initialPass], by simp [initialPass], by simp, ?_⟩
        simp only [initialPass, List.nil_append]
        by_cases hh : mapHas bus.handlers name = true
        · by_cases hpe : (spliceDescending ((mapGet bus.handlers name).getD [])
              (namedOnceIdxs ((mapGet bus.handlers name).getD [])
                ((mapGet bus.handlers name).getD []))).isEmpty = true
          · simp only [hh, if_true, hpe]
            rw [mapGet_mapDelete_self]
            simp [List.isEmpty_iff.mp hpe]
          · simp only [hh, if_true, hpe, Bool.false_eq_true, if_false]
            rw [mapGet_mapSet_self]
            rfl
        · have hh' : mapHas bus.handlers name = false := by simpa using hh
          have hnone := mapGet_eq_none_of_not_has bus.handlers name hh'
          simp only [hh', Bool.false_eq_true, if_false]
          rw [hnone]
          simp [namedOnceIdxs, spliceDescending]

/-- The `on` operation succeeds exactly on valid names, and then only rewrites
the bucket. -/
theorem subscribeOn_ok (bus b' : EventBus Data) (name : String)
    (h : HandlerId) (p : EventPriority)
    (hok : subscribeOn bus name h p = .ok b') :
    validEventName name = true ∧
    b' = { bus with handlers := mapSet bus.handlers name (sortHandlersByPriority ((mapGet bus.handlers name).getD [] ++ [⟨h, p, false⟩])) } := by
  by_cases hv : validEventName name = true
  · refine ⟨hv, ?_⟩
    simp only [subscribeOn, hv, Bool.not_true, Bool.false_eq_true, if_false,
      Except.ok.injEq] at hok
    exact hok.symm
  · exfalso
    simp [subscribeOn, (by simpa using hv : validEventName name = false)]
      at hok

/-- The `once` operation succeeds exactly on valid names, and then only
rewrites the bucket. -/
theorem subscribeOnce_ok (bus b' : EventBus Data) (name : String)
    (h : HandlerId) (p : EventPriority)
    (hok : subscribeOnce bus name h p = .ok b') :
    validEventName name = true ∧
    b' = { bus with handlers := mapSet bus.handlers name (sortHandlersByPriority ((mapGet bus.handlers name).getD [] ++ [⟨h, p, true⟩])) } := by
  by_cases hv : validEventName name = true
  · refine ⟨hv, ?_⟩
    simp only [subscribeOnce, hv, Bool.not_true, Bool.false_eq_true, if_false,
      Except.ok.injEq] at hok
    exact hok.symm
  · exfalso
    simp [subscribeOnce, (by simpa using hv : validEventName name = false)]
      at hok

/-- The three successful outcomes of `off`. -/
theorem unsubscribe_ok (bus b' : EventBus Data) (name : String)
    (h : Option HandlerId) (hok : unsubscribe bus name h = .ok b') :
    b' = bus ∨
    b' = { bus with handlers := mapDelete bus.handlers name } ∨
    ∃ bucket', bucket' ≠ [] ∧
      bucket'.Sublist ((mapGet bus.handlers name).getD []) ∧
      b' = { bus with handlers := mapSet bus.handlers name bucket' } := by
  by_cases hv : validEventName name = true
  · simp only [unsubscribe, hv, Bool.not_true, Bool.false_eq_true,
      if_false] at hok
    cases hget : mapGet bus.handlers name with
    | none =>
      rw [hget] at hok
      simp only [Except.ok.injEq] at hok
      exact Or.inl hok.symm
    | some bucket =>
      rw [hget] at hok
      cases h with
      | none =>
        simp only [Except.ok.injEq] at hok
        exact Or.inr (Or.inl hok.symm)
      | some hid =>
        simp only at hok
        set bucket' := (match bucket.findIdx? (fun r => r.handler == hid) with
          | some i => bucket.eraseIdx i
          | none => bucket) with hbucket'
        have hsub : bucket'.Sublist bucket := by
          rw [hbucket']
          cases bucket.findIdx? (fun r => r.handler == hid) with
          | none => exact List.Sublist.refl _
          | some i => exact List.eraseIdx_sublist _ _
        by_cases he : bucket'.isEmpty = true
        · rw [if_pos he] at hok
          simp only [Except.ok.injEq] at hok
          exact Or.inr (Or.inl hok.symm)
        · rw [if_neg he] at hok
          simp only [Except.ok.injEq] at hok
          refine Or.inr (Or.inr ⟨bucket', ?_, ?_, hok.symm⟩)
          · intro hcon
            exact he (by simp [hcon])
          · simpa [hget] using hsub
  · exfalso
    simp [unsubscribe, (by simpa using hv : validEventName name = false)]
      at hok

/-- Removing indices one by one yields a sublist. -/
theorem foldl_eraseIdx_sublist (idxs : List Nat) (l : List α) :
    (idxs.foldl (fun acc i => acc.eraseIdx i) l).Sublist l := by
  induction idxs generalizing l with
  | nil => exact List.Sublist.refl _
  | cons i rest ih =>
    exact (ih (l.eraseIdx i)).trans (List.eraseIdx_sublist l i)

/-- The once-pruning splice yields a sublist of the live list. -/
theorem spliceDescending_sublist (l : List α) (idxs : List Nat) :
    (spliceDescending l idxs).Sublist l :=
  foldl_eraseIdx_sublist _ l

/-- The shape of the handlers map after `emit`: untouched, bucket deleted, or
bucket replaced by a non-empty sublist of itself. -/
theorem emit_handlers_shape (env : HandlerBehavior Data)
    (bus : EventBus Data) (name : String) (d : Option Data) (ts : Nat) :
    (emit env bus name d ts).bus.handlers = bus.handlers ∨
    (emit env bus name d ts).bus.handlers = mapDelete bus.handlers name ∨
    ∃ pruned, pruned ≠ [] ∧
      pruned.Sublist ((mapGet bus.handlers name).getD []) ∧
      (emit env bus name d ts).bus.handlers =
        mapSet bus.handlers name pruned := by
  by_cases hv : validEventName name = true
  · rw [emit_unfold_valid env bus name d ts hv]
    by_cases hns : (!bus.options.allowEmptyEvents &&
        ((mapGet bus.handlers name).getD []).isEmpty &&
        bus.wildcardHandlers.isEmpty) = true
    · simp [hns]
    · simp only [hns, Bool.false_eq_true, if_false]
      cases hst1 : (runNamedHandlers env bus.options
          ((mapGet bus.handlers name).getD []) name d
          ((mapGet bus.handlers name).getD []) initialPass).aborted with
      | some h => simp
      | none =>
        simp only
        cases hst2 : (runWildcardHandlers env bus.options bus.wildcardHandlers
            name d bus.wildcardHandlers
            (runNamedHandlers env bus.options
              ((mapGet bus.handlers name).getD []) name d
              ((mapGet bus.handlers name).getD []) initialPass)).aborted with
        | some h => simp
        | none =>
          simp only
          by_cases hh : mapHas bus.handlers name = true
          · by_cases hpe : (spliceDescending
                ((mapGet bus.handlers name).getD [])
                ((runWildcardHandlers env bus.options bus.wildcardHandlers
                  name d bus.wildcardHandlers
                  (runNamedHandlers env bus.options
                    ((mapGet bus.handlers name).getD []) name d
                    ((mapGet bus.handlers name).getD [])
                    initialPass)).onceIdxs)).isEmpty = true
            · simp only [hh, if_true, hpe]
              exact Or.inr (Or.inl trivial)
            · simp only [hh, if_true, hpe, Bool.false_eq_true, if_false]
              refine Or.inr (Or.inr ⟨_, ?_, spliceDescending_sublist _ _,
                rfl⟩)
              intro hcon
              exact hpe (by simp [hcon])
          · have hh' : mapHas bus.handlers name = false := by simpa using hh
            simp [hh']
  · rw [emit_invalid env bus name d ts (by simpa using hv)]
    exact Or.inl rfl

/-- The shape of the wildcard list after `emit`: untouched or a sublist. -/
theorem emit_wildcards_shape (env : HandlerBehavior Data)
    (bus : EventBus Data) (name : String) (d : Option Data) (ts : Nat) :
    (emit env bus name d ts).bus.wildcardHandlers = bus.wildcardHandlers ∨
    (emit env bus name d ts).bus.wildcardHandlers.Sublist
      bus.wildcardHandlers := by
  by_cases hv : validEventName name = true
  · rw [emit_unfold_valid env bus name d ts hv]
    by_cases hns : (!bus.options.allowEmptyEvents &&
        ((mapGet bus.handlers name).getD []).isEmpty &&
        bus.wildcardHandlers.isEmpty) = true
    · simp [hns]
    · simp only [hns, Bool.false_eq_true, if_false]
      cases hst1 : (runNamedHandlers env bus.options
          ((mapGet bus.handlers name).getD []) name d
          ((mapGet bus.handlers name).getD []) initialPass).aborted with
      | some h => simp
      | none =>
        simp only
        cases hst2 : (runWildcardHandlers env bus.options bus.wildcardHandlers
            name d bus.wildcardHandlers
            (runNamedHandlers env bus.options
              ((mapGet bus.handlers name).getD []) name d
              ((mapGet bus.handlers name).getD []) initialPass)).aborted with
        | some h => simp
        | none =>
          simp only
          exact Or.inr (spliceDescending_sublist _ _)
  · rw [emit_invalid env bus name d ts (by simpa using hv)]
    exact Or.inl rfl

/-- Options and the `maxHistorySize` field are fixed at construction. -/
theorem reachable_options (inp : OptionsInput) (ar : Bool)
    (b : EventBus Data) (hr : ReachableAux Data inp ar b) :
    b.options = resolveOptions inp ∧
    b.maxHistorySize = (resolveOptions inp).maxHistorySize := by
  induction hr with
  | init => exact ⟨rfl, rfl⟩
  | stepOn name h p hb hok ih =>
    obtain ⟨-, rfl⟩ := subscribeOn_ok _ _ _ _ _ hok
    exact ih
  | stepOnce name h p hb hok ih =>
    obtain ⟨-, rfl⟩ := subscribeOnce_ok _ _ _ _ _ hok
    exact ih
  | stepOnAny h cfg hb ih => exact ih
  | stepOff name h hb hok ih =>
    rcases unsubscribe_ok _ _ _ _ hok with rfl | rfl | ⟨bucket', -, -, rfl⟩
      <;> exact ih
  | stepOffAny h hb ih =>
    unfold unsubscribeAny
    split
    · exact ih
    · exact ih
  | stepEmit env name d ts hb ih =>
    exact ⟨(emit_options env _ name d ts).trans ih.1,
      (emit_maxHistorySize env _ name d ts).trans ih.2⟩
  | stepClear hb ih => exact ih
  | stepClearHistory hb ih => exact ih
  | stepRestore har hb hb' ih ih' =>
    exact ⟨ih'.1, ih.2⟩

/-- The bucket sort really sorts. -/
theorem sortHandlersByPriority_sorted (l : List HandlerRecord) :
    List.Sorted (fun a b : HandlerRecord => a.priority ≤ b.priority)
      (sortHandlersByPriority l) :=
  List.sorted_insertionSort _ l

/-- The wildcard sort really sorts. -/
theorem sortWildcardByPriority_sorted (l : List (WildcardRecord Data)) :
    List.Sorted (fun a b : WildcardRecord Data => a.priority ≤ b.priority)
      (sortWildcardByPriority l) :=
  List.sorted_insertionSort _ l

/-- Sorting does not lose records. -/
theorem sortHandlersByPriority_ne_nil (l : List HandlerRecord)
    (h : l ≠ []) : sortHandlersByPriority l ≠ [] := by
  intro hcon
  apply h
  have := (List.perm_insertionSort
    (fun a b : HandlerRecord => a.priority ≤ b.priority) l).length_eq
  rw [sortHandlersByPriority] at hcon
  rw [hcon] at this
  exact List.eq_nil_of_length_eq_zero this.symm

/-- A looked-up bucket of a sorted map is sorted. -/
theorem sorted_getD (m : List (String × List HandlerRecord)) (k : String)
    (hm : ∀ n bkt, (n, bkt) ∈ m →
      List.Sorted (fun a b : HandlerRecord => a.priority ≤ b.priority) bkt) :
    List.Sorted (fun a b : HandlerRecord => a.priority ≤ b.priority)
      ((mapGet m k).getD []) := by
  cases hget : mapGet m k with
  | none => simp
  | some bkt => simpa using hm k bkt (mapGet_mem m k bkt hget)

/-- In every reachable state, every bucket and the wildcard list are sorted by
ascending priority. -/
theorem reachable_sorted (inp : OptionsInput) (ar : Bool)
    (b : EventBus Data) (hr : ReachableAux Data inp ar b) :
    (∀ n bkt, (n, bkt) ∈ b.handlers →
      List.Sorted (fun a b : HandlerRecord => a.priority ≤ b.priority) bkt) ∧
    List.Sorted (fun a b : WildcardRecord Data => a.priority ≤ b.priority)
      b.wildcardHandlers := by
  induction hr with
  | init =>
    refine ⟨fun n bkt h => ?_, by simp [mkEventBus]⟩
    simp [mkEventBus] at h
  | stepOn name h p hb hok ih =>
    obtain ⟨-, rfl⟩ := subscribeOn_ok _ _ _ _ _ hok
    refine ⟨fun n bkt hmem => ?_, ih.2⟩
    rcases mem_mapSet _ _ _ _ _ hmem with hold | ⟨-, rfl⟩
    · exact ih.1 n bkt hold
    · exact sortHandlersByPriority_sorted _
  | stepOnce name h p hb hok ih =>
    obtain ⟨-, rfl⟩ := subscribeOnce_ok _ _ _ _ _ hok
    refine ⟨fun n bkt hmem => ?_, ih.2⟩
    rcases mem_mapSet _ _ _ _ _ hmem with hold | ⟨-, rfl⟩
    · exact ih.1 n bkt hold
    · exact sortHandlersByPriority_sorted _
  | stepOnAny h cfg hb ih =>
    exact ⟨ih.1, sortWildcardByPriority_sorted _⟩
  | stepOff name h hb hok ih =>
    rcases unsubscribe_ok _ _ _ _ hok with rfl | rfl | ⟨bucket', -, hsub, rfl⟩
    · exact ih
    · refine ⟨fun n bkt hmem => ?_, ih.2⟩
      exact ih.1 n bkt (mem_mapDelete _ _ _ _ hmem)
    · refine ⟨fun n bkt hmem => ?_, ih.2⟩
      rcases mem_mapSet _ _ _ _ _ hmem with hold | ⟨-, rfl⟩
      · exact ih.1 n bkt hold
      · exact List.Pairwise.sublist hsub (sorted_getD _ _ ih.1)
  | stepOffAny h hb ih =>
    unfold unsubscribeAny
    split
    · exact ⟨ih.1, List.Pairwise.sublist (List.eraseIdx_sublist _ _) ih.2⟩
    · exact ih
  | stepEmit env name d ts hb ih =>
    rename_i b
    constructor
    · rcases emit_handlers_shape env b name d ts with heq | heq |
        ⟨pruned, -, hsub, heq⟩
      · intro n bkt hmem
        rw [heq] at hmem
        exact ih.1 n bkt hmem
      · intro n bkt hmem
        rw [heq] at hmem
        exact ih.1 n bkt (mem_mapDelete _ _ _ _ hmem)
      · intro n bkt hmem
        rw [heq] at hmem
        rcases mem_mapSet _ _ _ _ _ hmem with hold | ⟨-, rfl⟩
        · exact ih.1 n bkt hold
        · exact List.Pairwise.sublist hsub (sorted_getD _ _ ih.1)
    · rcases emit_wildcards_shape env b name d ts with heq | hsub
      · rw [heq]
        exact ih.2
      · exact List.Pairwise.sublist hsub ih.2
  | stepClear hb ih =>
    refine ⟨fun n bkt h => ?_, by simp [clearBus]⟩
    simp [clearBus] at h
  | stepClearHistory hb ih => exact ih
  | stepRestore har hb hb' ih ih' =>
    refine ⟨fun n bkt hmem => ?_, by simp [restoreFromSnapshot, clearBus]⟩
    simp only [restoreFromSnapshot, getSnapshot, clearBus,
      List.mem_map] at hmem
    obtain ⟨p, -, hpe⟩ := hmem
    injection hpe with h1 h2
    subst h2
    simp

/-- In every state reachable without `restoreFromSnapshot`, every bucket is
non-empty. -/
theorem reachableNR_buckets_nonempty (inp : OptionsInput)
    (b : EventBus Data) (hr : ReachableAux Data inp false b) :
    ∀ n bkt, (n, bkt) ∈ b.handlers → bkt ≠ [] := by
  induction hr with
  | init =>
    intro n bkt h
    simp [mkEventBus] at h
  | stepOn name h p hb hok ih =>
    obtain ⟨-, rfl⟩ := subscribeOn_ok _ _ _ _ _ hok
    intro n bkt hmem
    rcases mem_mapSet _ _ _ _ _ hmem with hold | ⟨-, rfl⟩
    · exact ih n bkt hold
    · exact sortHandlersByPriority_ne_nil _ (by simp)
  | stepOnce name h p hb hok ih =>
    obtain ⟨-, rfl⟩ := subscribeOnce_ok _ _ _ _ _ hok
    intro n bkt hmem
    rcases mem_mapSet _ _ _ _ _ hmem with hold | ⟨-, rfl⟩
    · exact ih n bkt hold
    · exact sortHandlersByPriority_ne_nil _ (by simp)
  | stepOnAny h cfg hb ih => exact ih
  | stepOff name h hb hok ih =>
    rcases unsubscribe_ok _ _ _ _ hok with rfl | rfl |
      ⟨bucket', hne, hsub, rfl⟩
    · exact ih
    · intro n bkt hmem
      exact ih n bkt (mem_mapDelete _ _ _ _ hmem)
    · intro n bkt hmem
      rcases mem_mapSet _ _ _ _ _ hmem with hold | ⟨-, rfl⟩
      · exact ih n bkt hold
      · exact hne
  | stepOffAny h hb ih =>
    unfold unsubscribeAny
    split
    · exact ih
    · exact ih
  | stepEmit env name d ts hb ih =>
    rename_i b
    rcases emit_handlers_shape env b name d ts with heq | heq |
      ⟨pruned, hne, hsub, heq⟩
    · intro n bkt hmem
      rw [heq] at hmem
      exact ih n bkt hmem
    · intro n bkt hmem
      rw [heq] at hmem
      exact ih n bkt (mem_mapDelete _ _ _ _ hmem)
    · intro n bkt hmem
      rw [heq] at hmem
      rcases mem_mapSet _ _ _ _ _ hmem with hold | ⟨-, rfl⟩
      · exact ih n bkt hold
      · exact hne
  | stepClear hb ih =>
    intro n bkt h
    simp [clearBus] at h
  | stepClearHistory hb ih => exact ih
  | stepRestore har hb hb' ih ih' => exact absurd har (by simp)

/-- The history bound is preserved by `recordEvent`. -/
theorem recordEvent_length_le (hist : List (HistoryEntry Data)) (maxH : Nat)
    (ev : String) (d : Option Data) (ts : Nat)
    (h : hist.length ≤ maxH) :
    (recordEvent hist maxH ev d ts).length ≤ maxH := by
  unfold recordEvent
  by_cases hc : maxH < (hist ++ [(⟨ev, d, ts⟩ : HistoryEntry Data)]).length
  · rw [if_pos hc]
    simp only [List.length_tail, List.length_append, List.length_singleton]
    omega
  · rw [if_neg hc]
    simp only [List.length_append, List.length_singleton] at hc ⊢
    omega

/-- In every reachable state the history length is bounded by the
`maxHistorySize` field. -/
theorem reachable_history_le (inp : OptionsInput) (ar : Bool)
    (b : EventBus Data) (hr : ReachableAux Data inp ar b) :
    b.eventHistory.length ≤ b.maxHistorySize := by
  induction hr with
  | init => simp [mkEventBus]
  | stepOn name h p hb hok ih =>
    obtain ⟨-, rfl⟩ := subscribeOn_ok _ _ _ _ _ hok
    exact ih
  | stepOnce name h p hb hok ih =>
    obtain ⟨-, rfl⟩ := subscribeOnce_ok _ _ _ _ _ hok
    exact ih
  | stepOnAny h cfg hb ih => exact ih
  | stepOff name h hb hok ih =>
    rcases unsubscribe_ok _ _ _ _ hok with rfl | rfl | ⟨bucket', -, -, rfl⟩
      <;> exact ih
  | stepOffAny h hb ih =>
    unfold unsubscribeAny
    split
    · exact ih
    · exact ih
  | stepEmit env name d ts hb ih =>
    rename_i b
    by_cases hv : validEventName name = true
    · rw [emit_history env b name d ts hv, emit_maxHistorySize env b name d ts]
      exact recordEvent_length_le _ _ _ _ _ ih
    · rw [emit_invalid env b name d ts (by simpa using hv)]
      exact ih
  | stepClear hb ih => exact ih
  | stepClearHistory hb ih => simp [clearHistory]
  | stepRestore har hb hb' ih ih' =>
    rename_i b b'
    have h1 := reachable_options inp ar b hb
    have h2 := reachable_options inp ar b' hb'
    simp only [restoreFromSnapshot, getSnapshot, clearBus]
    calc b'.eventHistory.length ≤ b'.maxHistorySize := ih'
    _ = b.maxHistorySize := by rw [h2.2, h1.2]

/-- With `catchErrors=false` and a first throwing handler at index `i` of the
cloned bucket, the named loop invokes exactly the records up to and including
the thrower and marks the pass aborted. -/
theorem runNamedHandlers_abort (env : HandlerBehavior Data)
    (opts : EventBusOptions) (live : List HandlerRecord) (name : String)
    (d : Option Data) (rest : List HandlerRecord) (st : PassState)
    (hcatch : opts.catchErrors = false) (i : Nat)
    (hfind : rest.findIdx? (fun r => env.throwsOn r.handler d) = some i) :
    (runNamedHandlers env opts live name d rest st).trace =
      st.trace ++ (rest.take (i + 1)).map (fun r => r.handler) ∧
    (runNamedHandlers env opts live name d rest st).aborted.isSome := by
  induction rest generalizing st i with
  | nil => simp [List.findIdx?] at hfind
  | cons r rest ih =>
    rw [List.findIdx?_cons] at hfind
    by_cases hthrow : env.throwsOn r.handler d = true
    · rw [if_pos hthrow, Option.some.injEq] at hfind
      subst hfind
      by_cases honce : r.once
      · cases hfi : live.findIdx? (fun x => x.handler == r.handler) with
        | none =>
          constructor <;>
            simp [runNamedHandlers, honce, hfi, hthrow, hcatch]
        | some k =>
          constructor <;>
            simp [runNamedHandlers, honce, hfi, hthrow, hcatch]
      · constructor <;>
          simp [runNamedHandlers, honce, hthrow, hcatch]
    · have hthrow' : env.throwsOn r.handler d = false := by simpa using hthrow
      rw [if_neg (by simp [hthrow']), List.findIdx?_succ] at hfind
      cases hprev : rest.findIdx? (fun r => env.throwsOn r.handler d) with
      | none => simp [hprev] at hfind
      | some j =>
        rw [hprev] at hfind
        simp at hfind
        subst hfind
        have hnext : ∃ st', st'.trace = st.trace ++ [r.handler] ∧
            runNamedHandlers env opts live name d rest st' =
              runNamedHandlers env opts live name d (r :: rest) st := by
          by_cases honce : r.once
          · cases hfi : live.findIdx? (fun x => x.handler == r.handler) with
            | none =>
              by_cases hp : (opts.asyncEventHandling &&
                  env.promiseOn r.handler d) = true
              · exact ⟨_, rfl,
                  by simp [runNamedHandlers, honce, hfi, hthrow', hp]
                    <;> rfl⟩
              · exact ⟨_, rfl,
                  by simp [runNamedHandlers, honce, hfi, hthrow', hp]
                    <;> rfl⟩
            | some k =>
              by_cases hp : (opts.asyncEventHandling &&
                  env.promiseOn r.handler d) = true
              · exact ⟨_, rfl,
                  by simp [runNamedHandlers, honce, hfi, hthrow', hp]
                    <;> rfl⟩
              · exact ⟨_, rfl,
                  by simp [runNamedHandlers, honce, hfi, hthrow', hp]
                    <;> rfl⟩
          · by_cases hp : (opts.asyncEventHandling &&
                env.promiseOn r.handler d) = true
            · exact ⟨_, rfl,
                by simp [runNamedHandlers, honce, hthrow', hp] <;> rfl⟩
            · exact ⟨_, rfl,
                by simp [runNamedHandlers, honce, hthrow', hp] <;> rfl⟩
        obtain ⟨st', hst'tr, hst'eq⟩ := hnext
        rw [← hst'eq]
        obtain ⟨h1, h2⟩ := ih st' j hprev
        refine ⟨?_, h2⟩
        rw [h1, hst'tr]
        simp [List.take_succ_cons]

/-- With `catchErrors=false` and a first throwing matching wildcard at index
`i` of the matched subsequence, the wildcard loop invokes exactly the matched
records up to and including the thrower and marks the pass aborted. -/
theorem runWildcardHandlers_abort (env : HandlerBehavior Data)
    (opts : EventBusOptions) (live : List (WildcardRecord Data))
    (name : String) (d : Option Data) (rest : List (WildcardRecord Data))
    (st : PassState) (hcatch : opts.catchErrors = false) (i : Nat)
    (hfind : (rest.filter (fun r => filterPasses r.filter name d)).findIdx?
      (fun r => env.throwsOnAny r.handler name d) = some i) :
    (runWildcardHandlers env opts live name d rest st).trace =
      st.trace ++ ((rest.filter
        (fun r => filterPasses r.filter name d)).take (i + 1)).map
        (fun r => r.handler) ∧
    (runWildcardHandlers env opts live name d rest st).aborted.isSome := by
  induction rest generalizing st i with
  | nil => simp [List.findIdx?] at hfind
  | cons r rest ih =>
    by_cases hpass : filterPasses r.filter name d = true
    · simp only [List.filter_cons, hpass, if_true] at hfind ⊢
      by_cases hthrow : env.throwsOnAny r.handler name d = true
      · rw [List.findIdx?_cons, if_pos hthrow, Option.some.injEq] at hfind
        subst hfind
        by_cases honce : r.once
        · cases hfi : live.findIdx? (fun x => x.handler == r.handler) with
          | none =>
            constructor <;>
              simp [runWildcardHandlers, hpass, honce, hfi, hthrow, hcatch]
          | some k =>
            constructor <;>
              simp [runWildcardHandlers, hpass, honce, hfi, hthrow, hcatch]
        · constructor <;>
            simp [runWildcardHandlers, hpass, honce, hthrow, hcatch]
      · have hthrow' : env.throwsOnAny r.handler name d = false := by
          simpa using hthrow
        rw [List.findIdx?_cons, if_neg (by simp [hthrow']),
          List.findIdx?_succ] at hfind
        cases hprev : (rest.filter
            (fun r => filterPasses r.filter name d)).findIdx?
            (fun r => env.throwsOnAny r.handler name d) with
        | none => simp [hprev] at hfind
        | some j =>
          rw [hprev] at hfind
          simp at hfind
          subst hfind
          have hnext : ∃ st', st'.trace = st.trace ++ [r.handler] ∧
              runWildcardHandlers env opts live name d rest st' =
                runWildcardHandlers env opts live name d (r :: rest) st := by
            by_cases honce : r.once
            · cases hfi : live.findIdx? (fun x => x.handler == r.handler) with
              | none =>
                by_cases hp : (opts.asyncEventHandling &&
                    env.promiseOnAny r.handler name d) = true
                · exact ⟨_, rfl, by
                    simp [runWildcardHandlers, hpass, honce, hfi, hthrow', hp]
                      <;> rfl⟩
                · exact ⟨_, rfl, by
                    simp [runWildcardHandlers, hpass, honce, hfi, hthrow', hp]
                      <;> rfl⟩
              | some k =>
                by_cases hp : (opts.asyncEventHandling &&
                    env.promiseOnAny r.handler name d) = true
                · exact ⟨_, rfl, by
                    simp [runWildcardHandlers, hpass, honce, hfi, hthrow', hp]
                      <;> rfl⟩
                · exact ⟨_, rfl, by
                    simp [runWildcardHandlers, hpass, honce, hfi, hthrow', hp]
                      <;> rfl⟩
            · by_cases hp : (opts.asyncEventHandling &&
                  env.promiseOnAny r.handler name d) = true
              · exact ⟨_, rfl, by
                  simp [runWildcardHandlers, hpass, honce, hthrow', hp]
                    <;> rfl⟩
              · exact ⟨_, rfl, by
                  simp [runWildcardHandlers, hpass, honce, hthrow', hp]
                    <;> rfl⟩
          obtain ⟨st', hst'tr, hst'eq⟩ := hnext
          rw [← hst'eq]
          obtain ⟨h1, h2⟩ := ih st' j hprev
          refine ⟨?_, h2⟩
          rw [h1, hst'tr]
          simp [List.take_succ_cons]
    · have hpass' : filterPasses r.filter name d = false := by
        simpa using hpass
      simp only [List.filter_cons, hpass', Bool.false_eq_true, if_false]
        at hfind ⊢
      have hskip : runWildcardHandlers env opts live name d (r :: rest) st =
          runWildcardHandlers env opts live name d rest st := by
        simp [runWildcardHandlers, hpass']
      rw [hskip]
      exact ih st i hfind

/-- C1 (counterexample): on a bus with `allowEmptyEvents=false` whose only
subscriber is a wildcard whose filter rejects the emitted event, the resolved
matching set is empty, yet `emit` does not raise `NoSubscribers` — it returns
normally having invoked no handler. The code tests mere wildcard existence,
not filter passage. -/
theorem c1_counterexample :
    c1Bus.options.allowEmptyEvents = false ∧
    (mapGet c1Bus.handlers "a").getD [] = [] ∧
    c1Bus.wildcardHandlers.all
      (fun r => !filterPasses r.filter "a" none) = true ∧
    (emit quietU c1Bus "a" none 0).error = none ∧
    (emit quietU c1Bus "a" none 0).trace = [] :=
  ⟨rfl, rfl, rfl, rfl, rfl⟩

/-- C1 (amended): with a valid name, `emit` raises `NoSubscribers` exactly
when `allowEmptyEvents=false`, the named bucket is empty, and the wildcard
list is empty — wildcard filters are not consulted by the policy check. When
the resolved set is empty (bucket empty, every wildcard filter rejects) and
`allowEmptyEvents=true`, the call returns normally with no handler invoked. -/
theorem c1_empty_event_policy (env : HandlerBehavior Data)
    (bus : EventBus Data) (name : String) (d : Option Data) (ts : Nat)
    (hvalid : validEventName name = true) :
    ((emit env bus name d ts).error = some .noSubscribers ↔
      (bus.options.allowEmptyEvents = false ∧
        (mapGet bus.handlers name).getD [] = [] ∧
        bus.wildcardHandlers = [])) ∧
    (bus.options.allowEmptyEvents = true →
      (mapGet bus.handlers name).getD [] = [] →
      bus.wildcardHandlers.all (fun r => !filterPasses r.filter name d) →
      (emit env bus name d ts).error = none ∧
      (emit env bus name d ts).trace = []) := by
  constructor
  · rw [emit_unfold_valid env bus name d ts hvalid]
    by_cases hns : (!bus.options.allowEmptyEvents &&
        ((mapGet bus.handlers name).getD []).isEmpty &&
        bus.wildcardHandlers.isEmpty) = true
    · simp only [hns, if_true]
      have h1 : bus.options.allowEmptyEvents = false := by
        have := ((Bool.and_eq_true _ _).mp
          ((Bool.and_eq_true _ _).mp hns).1).1
        simpa using this
      have h2 : (mapGet bus.handlers name).getD [] = [] :=
        List.isEmpty_iff.mp
          ((Bool.and_eq_true _ _).mp ((Bool.and_eq_true _ _).mp hns).1).2
      have h3 : bus.wildcardHandlers = [] :=
        List.isEmpty_iff.mp ((Bool.and_eq_true _ _).mp hns).2
      simp [h1, h2, h3]
    · simp only [hns, Bool.false_eq_true, if_false]
      constructor
      · intro he
        exfalso
        cases hst1 : (runNamedHandlers env bus.options
            ((mapGet bus.handlers name).getD []) name d
            ((mapGet bus.handlers name).getD []) initialPass).aborted with
        | some h =>
          rw [hst1] at he
          simp at he
        | none =>
          rw [hst1] at he
          simp only at he
          cases hst2 : (runWildcardHandlers env bus.options
              bus.wildcardHandlers name d bus.wildcardHandlers
              (runNamedHandlers env bus.options
                ((mapGet bus.handlers name).getD []) name d
                ((mapGet bus.handlers name).getD [])
                initialPass)).aborted with
          | some h =>
            rw [hst2] at he
            simp at he
          | none =>
            rw [hst2] at he
            simp at he
      · intro ⟨ha, hl, hw⟩
        exfalso
        apply hns
        simp [ha, hl, hw]
  · intro ha hl hall
    have hcomplete : bus.options.catchErrors = true ∨
        (emit env bus name d ts).error = none := by
      right
      rw [emit_unfold_valid env bus name d ts hvalid]
      have hns : (!bus.options.allowEmptyEvents &&
          ((mapGet bus.handlers name).getD []).isEmpty &&
          bus.wildcardHandlers.isEmpty) = false := by
        simp [ha]
      simp only [hns, Bool.false_eq_true, if_false]
      have hst1 : runNamedHandlers env bus.options
          ((mapGet bus.handlers name).getD []) name d
          ((mapGet bus.handlers name).getD []) initialPass = initialPass :=
        by rw [hl]; rfl
      rw [hst1]
      have hnothrow : ∀ r ∈ bus.wildcardHandlers,
          filterPasses r.filter name d = true →
          env.throwsOnAny r.handler name d = false := by
        intro r hr hp
        have := List.all_eq_true.mp hall r hr
        simp [hp] at this
      have hst2 := runWildcardHandlers_complete env bus.options
        bus.wildcardHandlers name d bus.wildcardHandlers initialPass
        (Or.inr hnothrow)
      rw [hst2]
      rfl
    have hspec := emit_complete_spec env bus name d ts hvalid hcomplete
    have hmatched : bus.wildcardHandlers.filter
        (fun r => filterPasses r.filter name d) = [] := by
      rw [List.filter_eq_nil_iff]
      intro r hr
      have := List.all_eq_true.mp hall r hr
      simp at this
      simp [this]
    refine ⟨?_, ?_⟩
    · rcases hspec.2.2.1 with he | he
      · exact he
      · exfalso
        rw [(emit_unfold_valid env bus name d ts hvalid)] at he
        have hns : (!bus.options.allowEmptyEvents &&
            ((mapGet bus.handlers name).getD []).isEmpty &&
            bus.wildcardHandlers.isEmpty) = false := by
          simp [ha]
        simp only [hns, Bool.false_eq_true, if_false] at he
        cases hst1 : (runNamedHandlers env bus.options
            ((mapGet bus.handlers name).getD []) name d
            ((mapGet bus.handlers name).getD []) initialPass).aborted with
        | some h =>
          rw [hst1] at he
          simp at he
        | none =>
          rw [hst1] at he
          simp only at he
          cases hst2 : (runWildcardHandlers env bus.options
              bus.wildcardHandlers name d bus.wildcardHandlers
              (runNamedHandlers env bus.options
                ((mapGet bus.handlers name).getD []) name d
                ((mapGet bus.handlers name).getD [])
                initialPass)).aborted with
          | some h =>
            rw [hst2] at he
            simp at he
          | none =>
            rw [hst2] at he
            simp at he
    · rw [hspec.1, hl, hmatched]
      rfl

/-- C1 (witness): on an `allowEmptyEvents=false` bus with no subscriptions at
all, emitting raises `NoSubscribers`. -/
theorem c1_witness :
    (emit quietU c1wBus "a" none 0).error = some .noSubscribers :=
  (c1_empty_event_policy quietU c1wBus "a" none 0 (by decide)).1.mpr
    ⟨rfl, rfl, rfl⟩

/-- C2 (counterexample): register `on` then `once` with the same handler
function (identity 1). The first emit invokes both records, but the pruning's
`findIndex` removes the non-once record, so the once record survives and its
handler is invoked again by a second emit — a once-subscription's handler
invoked by two distinct emits. -/
theorem c2_counterexample :
    mapGet c2BusB.handlers "e" =
      some [⟨1, PNormal, false⟩, ⟨1, PNormal, true⟩] ∧
    (emit quietU c2BusB "e" none 0).trace = [1, 1] ∧
    mapGet (emit quietU c2BusB "e" none 0).bus.handlers "e" =
      some [⟨1, PNormal, true⟩] ∧
    (emit quietU (emit quietU c2BusB "e" none 0).bus "e" none 1).trace =
      [1] := by
  refine ⟨rfl, rfl, rfl, rfl⟩

/-- C2 (amended): provided the records of the bucket hold pairwise-distinct
handler functions and the pass completes (every throw caught, or no error
propagated), an emit of the name removes every once record of the bucket: the
post-state bucket is exactly the non-once records, so no once record can fire
in a later emit of that name. With duplicate handler functions, or when a
`catchErrors=false` pass aborts, pruning can miss the once record. -/
theorem c2_once_removed_after_emit (env : HandlerBehavior Data)
    (bus : EventBus Data) (name : String) (d : Option Data) (ts : Nat)
    (hvalid : validEventName name = true)
    (hdist : ((mapGet bus.handlers name).getD []).Pairwise
      (fun a b => a.handler ≠ b.handler))
    (hcomplete : bus.options.catchErrors = true ∨
      (emit env bus name d ts).error = none) :
    (mapGet (emit env bus name d ts).bus.handlers name).getD [] =
      ((mapGet bus.handlers name).getD []).filter (fun r => !r.once) := by
  have h := (emit_complete_spec env bus name d ts hvalid hcomplete).2.2.2
  rw [h, spliceDescending_named_eq_filter _ hdist]

/-- C2 (witness): a bus with a single once subscription has an empty bucket
after one emit. -/
theorem c2_witness :
    (mapGet (emit quietU c2wBus "e" none 0).bus.handlers "e").getD [] =
      [] := by
  have h := c2_once_removed_after_emit quietU c2wBus "e" none 0 (by decide)
    (by decide) (Or.inl rfl)
  rw [h]
  rfl

/-- C5 (counterexample): `catchErrors=false`, a single throwing `once`
handler. The emit throws, the history entry stands, but the once record is not
removed from the live bucket (the pruning loops after the handler loops never
run on abort), and the handler fires again on the next emit. -/
theorem c5_counterexample :
    c5Bus.options.catchErrors = false ∧
    mapGet c5Bus.handlers "e" = some [⟨1, PNormal, true⟩] ∧
    (emit throwEnv c5Bus "e" none 0).error = some (.handlerError 1) ∧
    (emit throwEnv c5Bus "e" none 0).trace = [1] ∧
    mapGet (emit throwEnv c5Bus "e" none 0).bus.handlers "e" =
      some [⟨1, PNormal, true⟩] ∧
    (emit throwEnv (emit throwEnv c5Bus "e" none 0).bus "e" none 1).trace =
      [1] := by
  refine ⟨rfl, rfl, rfl, rfl, rfl, rfl⟩

/-- C5 (amended): when a pass aborts because a handler threw with
`catchErrors=false`, no once-pruning happens at all — the named and wildcard
registries are exactly as before the emit — while the history entry recorded
up front stands. -/
theorem c5_abort_preserves_registries (env : HandlerBehavior Data)
    (bus : EventBus Data) (name : String) (d : Option Data) (ts : Nat)
    (hid : HandlerId)
    (h : (emit env bus name d ts).error = some (.handlerError hid)) :
    (emit env bus name d ts).bus.handlers = bus.handlers ∧
    (emit env bus name d ts).bus.wildcardHandlers = bus.wildcardHandlers ∧
    (emit env bus name d ts).bus.eventHistory =
      recordEvent bus.eventHistory bus.maxHistorySize name d ts :=
  emit_abort_state env bus name d ts hid h

/-- C5 (witness): the concrete aborting emit leaves the bucket untouched and
records the attempt. -/
theorem c5_witness :
    (emit throwEnv c5Bus "e" none 0).bus.handlers = c5Bus.handlers ∧
    (emit throwEnv c5Bus "e" none 0).bus.eventHistory =
      recordEvent c5Bus.eventHistory c5Bus.maxHistorySize "e" none 0 := by
  have h := c5_abort_preserves_registries throwEnv c5Bus "e" none 0 1 rfl
  exact ⟨h.1, h.2.2⟩

/-- Stable insertion into a sorted bucket: sorting after appending one record
puts the new record after every existing record of lower-or-equal priority
and before every strictly-greater one, leaving the rest untouched — so among
equal priorities, earlier-subscribed records always stay in front. An
unstable sort would not satisfy this equation. -/
theorem sortHandlersByPriority_append_singleton (l : List HandlerRecord)
    (r : HandlerRecord)
    (hl : List.Sorted (fun a b : HandlerRecord => a.priority ≤ b.priority)
      l) :
    sortHandlersByPriority (l ++ [r]) =
      l.takeWhile (fun x => x.priority ≤ r.priority) ++
        r :: l.dropWhile (fun x => x.priority ≤ r.priority) := by
  induction l with
  | nil => rfl
  | cons x xs ih =>
    have hxs := (List.sorted_cons.mp hl).2
    have hx : ∀ z ∈ xs, x.priority ≤ z.priority := (List.sorted_cons.mp hl).1
    have ihx := ih hxs
    rw [sortHandlersByPriority] at ihx ⊢
    simp only [List.cons_append]
    rw [List.insertionSort, ihx]
    by_cases hpx : x.priority ≤ r.priority
    · rw [List.takeWhile_cons_of_pos (by simpa using hpx),
        List.dropWhile_cons_of_pos (by simpa using hpx)]
      cases htw : xs.takeWhile (fun z => z.priority ≤ r.priority) with
      | nil =>
        simp only [List.nil_append, List.cons_append]
        exact List.orderedInsert_of_le _ _ hpx
      | cons y ys =>
        have hy : y ∈ xs := (List.takeWhile_sublist _).subset
          (htw ▸ List.mem_cons_self y ys)
        simp only [List.cons_append]
        exact List.orderedInsert_of_le _ _ (hx y hy)
    · have htw0 : xs.takeWhile (fun z => z.priority ≤ r.priority) = [] := by
        cases xs with
        | nil => rfl
        | cons y ys =>
          apply List.takeWhile_cons_of_neg
          have hyx := hx y (List.mem_cons_self _ _)
          intro hcon
          simp only [decide_eq_true_eq] at hcon
          exact absurd (Nat.le_trans hyx hcon) hpx
      have hdw0 : xs.dropWhile (fun z => z.priority ≤ r.priority) = xs := by
        cases xs with
        | nil => rfl
        | cons y ys =>
          apply List.dropWhile_cons_of_neg
          have hyx := hx y (List.mem_cons_self _ _)
          intro hcon
          simp only [decide_eq_true_eq] at hcon
          exact absurd (Nat.le_trans hyx hcon) hpx
      rw [htw0, hdw0, List.nil_append,
        List.takeWhile_cons_of_neg (by simpa using hpx),
        List.dropWhile_cons_of_neg (by simpa using hpx), List.nil_append,
        List.orderedInsert, if_neg hpx]
      congr 1
      cases xs with
      | nil => rfl
      | cons y ys =>
        exact List.orderedInsert_of_le _ _ (hx y (List.mem_cons_self _ _))

/-- Stable insertion into the sorted wildcard list (same statement as for
named buckets). -/
theorem sortWildcardByPriority_append_singleton
    (l : List (WildcardRecord Data)) (r : WildcardRecord Data)
    (hl : List.Sorted
      (fun a b : WildcardRecord Data => a.priority ≤ b.priority) l) :
    sortWildcardByPriority (l ++ [r]) =
      l.takeWhile (fun x => x.priority ≤ r.priority) ++
        r :: l.dropWhile (fun x => x.priority ≤ r.priority) := by
  induction l with
  | nil => rfl
  | cons x xs ih =>
    have hxs := (List.sorted_cons.mp hl).2
    have hx : ∀ z ∈ xs, x.priority ≤ z.priority := (List.sorted_cons.mp hl).1
    have ihx := ih hxs
    rw [sortWildcardByPriority] at ihx ⊢
    simp only [List.cons_append]
    rw [List.insertionSort, ihx]
    by_cases hpx : x.priority ≤ r.priority
    · rw [List.takeWhile_cons_of_pos (by simpa using hpx),
        List.dropWhile_cons_of_pos (by simpa using hpx)]
      cases htw : xs.takeWhile (fun z => z.priority ≤ r.priority) with
      | nil =>
        simp only [List.nil_append, List.cons_append]
        exact List.orderedInsert_of_le _ _ hpx
      | cons y ys =>
        have hy : y ∈ xs := (List.takeWhile_sublist _).subset
          (htw ▸ List.mem_cons_self y ys)
        simp only [List.cons_append]
        exact List.orderedInsert_of_le _ _ (hx y hy)
    · have htw0 : xs.takeWhile (fun z => z.priority ≤ r.priority) = [] := by
        cases xs with
        | nil => rfl
        | cons y ys =>
          apply List.takeWhile_cons_of_neg
          have hyx := hx y (List.mem_cons_self _ _)
          intro hcon
          simp only [decide_eq_true_eq] at hcon
          exact absurd (Nat.le_trans hyx hcon) hpx
      have hdw0 : xs.dropWhile (fun z => z.priority ≤ r.priority) = xs := by
        cases xs with
        | nil => rfl
        | cons y ys =>
          apply List.dropWhile_cons_of_neg
          have hyx := hx y (List.mem_cons_self _ _)
          intro hcon
          simp only [decide_eq_true_eq] at hcon
          exact absurd (Nat.le_trans hyx hcon) hpx
      rw [htw0, hdw0, List.nil_append,
        List.takeWhile_cons_of_neg (by simpa using hpx),
        List.dropWhile_cons_of_neg (by simpa using hpx), List.nil_append,
        List.orderedInsert, if_neg hpx]
      congr 1
      cases xs with
      | nil => rfl
      | cons y ys =>
        exact List.orderedInsert_of_le _ _ (hx y (List.mem_cons_self _ _))

/-- The `onAny` body resolved through `anyPriority`/`anyFilter` (the same
`typeof` dispatch as the source). -/
theorem subscribeAny_eq (bus : EventBus Data) (h : HandlerId)
    (cfg : AnyOptions Data) :
    subscribeAny bus h cfg =
      { bus with wildcardHandlers := sortWildcardByPriority (bus.wildcardHandlers ++ [⟨h, anyPriority cfg, false, anyFilter cfg⟩]) } := by
  cases cfg <;> rfl

/-- C3: (i) subscribing four handlers with priorities Low, High, Normal,
Critical in that call order and emitting invokes them in the order Critical,
High, Normal, Low (handlers 4, 2, 3, 1), and in the tie scenario Normal,
High, Normal, High (handlers 1, 2, 3, 4) the trace is [2, 4, 1, 3] — equal
priorities fire in call order; (ii) in every reachable state every bucket and
the wildcard list are priority-ascending; (iii) in any non-aborting pass the
trace is all named-bucket records in bucket order followed by all
filter-passing wildcard records in wildcard order — named always precedes
wildcard; (iv)–(vi) ties are broken by insertion order: `on`, `once` and
`onAny` place the new record after every existing record of lower-or-equal
priority and before every strictly-greater one, leaving the rest of the
sorted bucket untouched, so among equal priorities earlier subscriptions
always run first (an unstable sort would violate these equations). -/
theorem c3_priority_order :
    ((emit quietU c3Bus "t" none 0).trace = [4, 2, 3, 1] ∧
      (emit quietU c3TieBus "t" none 0).trace = [2, 4, 1, 3]) ∧
    (∀ (Data : Type) (inp : OptionsInput) (ar : Bool) (b : EventBus Data),
      ReachableAux Data inp ar b →
      (∀ n bkt, (n, bkt) ∈ b.handlers →
        List.Sorted (fun a b : HandlerRecord => a.priority ≤ b.priority)
          bkt) ∧
      List.Sorted (fun a b : WildcardRecord Data => a.priority ≤ b.priority)
        b.wildcardHandlers) ∧
    (∀ (Data : Type) (env : HandlerBehavior Data) (bus : EventBus Data)
      (name : String) (d : Option Data) (ts : Nat),
      validEventName name = true →
      (bus.options.catchErrors = true ∨ (emit env bus name d ts).error = none) →
      (emit env bus name d ts).trace =
        ((mapGet bus.handlers name).getD []).map (fun r => r.handler) ++
          (bus.wildcardHandlers.filter
            (fun r => filterPasses r.filter name d)).map
            (fun r => r.handler)) ∧
    (∀ (Data : Type) (bus b' : EventBus Data) (name : String)
      (h : HandlerId) (p : EventPriority),
      List.Sorted (fun a b : HandlerRecord => a.priority ≤ b.priority)
        ((mapGet bus.handlers name).getD []) →
      subscribeOn bus name h p = .ok b' →
      (mapGet b'.handlers name).getD [] =
        ((mapGet bus.handlers name).getD []).takeWhile
          (fun x => x.priority ≤ p) ++
          ⟨h, p, false⟩ :: ((mapGet bus.handlers name).getD []).dropWhile
            (fun x => x.priority ≤ p)) ∧
    (∀ (Data : Type) (bus b' : EventBus Data) (name : String)
      (h : HandlerId) (p : EventPriority),
      List.Sorted (fun a b : HandlerRecord => a.priority ≤ b.priority)
        ((mapGet bus.handlers name).getD []) →
      subscribeOnce bus name h p = .ok b' →
      (mapGet b'.handlers name).getD [] =
        ((mapGet bus.handlers name).getD []).takeWhile
          (fun x => x.priority ≤ p) ++
          ⟨h, p, true⟩ :: ((mapGet bus.handlers name).getD []).dropWhile
            (fun x => x.priority ≤ p)) ∧
    (∀ (Data : Type) (bus : EventBus Data) (h : HandlerId)
      (cfg : AnyOptions Data),
      List.Sorted (fun a b : WildcardRecord Data => a.priority ≤ b.priority)
        bus.wildcardHandlers →
      (subscribeAny bus h cfg).wildcardHandlers =
        bus.wildcardHandlers.takeWhile
          (fun x => x.priority ≤ anyPriority cfg) ++
          ⟨h, anyPriority cfg, false, anyFilter cfg⟩ ::
            bus.wildcardHandlers.dropWhile
              (fun x => x.priority ≤ anyPriority cfg)) := by
  refine ⟨⟨rfl, rfl⟩, ?_, ?_, ?_, ?_, ?_⟩
  · intro Data inp ar b hr
    exact reachable_sorted inp ar b hr
  · intro Data env bus name d ts hvalid hcomplete
    exact (emit_complete_spec env bus name d ts hvalid hcomplete).1
  · intro Data bus b' name h p hsorted hok
    obtain ⟨-, rfl⟩ := subscribeOn_ok _ _ _ _ _ hok
    rw [mapGet_mapSet_self]
    simpa using sortHandlersByPriority_append_singleton
      ((mapGet bus.handlers name).getD []) ⟨h, p, false⟩ hsorted
  · intro Data bus b' name h p hsorted hok
    obtain ⟨-, rfl⟩ := subscribeOnce_ok _ _ _ _ _ hok
    rw [mapGet_mapSet_self]
    simpa using sortHandlersByPriority_append_singleton
      ((mapGet bus.handlers name).getD []) ⟨h, p, true⟩ hsorted
  · intro Data bus h cfg hsorted
    rw [subscribeAny_eq]
    exact sortWildcardByPriority_append_singleton bus.wildcardHandlers
      ⟨h, anyPriority cfg, false, anyFilter cfg⟩ hsorted

/-- C3 (witness): the sortedness part applied to the concrete four-priority
bus (which is reachable), the trace decomposition applied to it, and the
stable-placement part applied to the tie scenario's last subscription
(handler 4, High, into a sorted bucket already holding a High and two
Normals). -/
theorem c3_witness :
    (∀ n bkt, (n, bkt) ∈ c3Bus.handlers →
      List.Sorted (fun a b : HandlerRecord => a.priority ≤ b.priority)
        bkt) ∧
    (emit quietU c3Bus "t" none 0).trace =
      ((mapGet c3Bus.handlers "t").getD []).map (fun r => r.handler) ++
        (c3Bus.wildcardHandlers.filter
          (fun r => filterPasses r.filter "t" none)).map
          (fun r => r.handler) ∧
    (mapGet c3TieBus.handlers "t").getD [] =
      ((mapGet c3TieBus3.handlers "t").getD []).takeWhile
        (fun x => x.priority ≤ PHigh) ++
        ⟨4, PHigh, false⟩ ::
          ((mapGet c3TieBus3.handlers "t").getD []).dropWhile
            (fun x => x.priority ≤ PHigh) := by
  have hreach : ReachableAux Unit defaultInput true c3Bus :=
    .stepOn "t" 4 PCritical
      (.stepOn "t" 3 PNormal
        (.stepOn "t" 2 PHigh
          (.stepOn "t" 1 PLow .init rfl) rfl) rfl) rfl
  refine ⟨(c3_priority_order.2.1 Unit defaultInput true c3Bus hreach).1,
    c3_priority_order.2.2.1 Unit quietU c3Bus "t" none 0 (by decide)
      (Or.inl rfl), ?_⟩
  exact c3_priority_order.2.2.2.1 Unit c3TieBus3 c3TieBus "t" 4 PHigh
    (by decide) rfl

/-- C4: with `catchErrors=true` every planned handler of the pass is invoked
(the trace is the full named-then-matching-wildcard sequence) and every
throwing handler is reported to `onError` paired with the event name, in
order; with `catchErrors=false`, if the first throwing handler sits at index
`i` of the cloned bucket the pass invokes exactly the records up to and
including it, no wildcard runs, and the exception propagates out of `emit`; if
no named handler throws but the `j`-th matching wildcard does, the pass
invokes all named records and the matching wildcards up to and including the
thrower, and the exception propagates. -/
theorem c4_error_policy (env : HandlerBehavior Data) (bus : EventBus Data)
    (name : String) (d : Option Data) (ts : Nat)
    (hvalid : validEventName name = true) :
    (bus.options.catchErrors = true →
      (emit env bus name d ts).trace =
        ((mapGet bus.handlers name).getD []).map (fun r => r.handler) ++
          (bus.wildcardHandlers.filter
            (fun r => filterPasses r.filter name d)).map
            (fun r => r.handler) ∧
      (emit env bus name d ts).reports =
        namedReports env name d ((mapGet bus.handlers name).getD []) ++
          wildReports env name d bus.wildcardHandlers) ∧
    (bus.options.catchErrors = false →
      ∀ i, ((mapGet bus.handlers name).getD []).findIdx?
          (fun r => env.throwsOn r.handler d) = some i →
      (emit env bus name d ts).trace =
        (((mapGet bus.handlers name).getD []).take (i + 1)).map
          (fun r => r.handler) ∧
      ∃ hh, (emit env bus name d ts).error = some (.handlerError hh)) ∧
    (bus.options.catchErrors = false →
      ((mapGet bus.handlers name).getD []).findIdx?
        (fun r => env.throwsOn r.handler d) = none →
      ∀ j, (bus.wildcardHandlers.filter
          (fun r => filterPasses r.filter name d)).findIdx?
          (fun r => env.throwsOnAny r.handler name d) = some j →
      (emit env bus name d ts).trace =
        ((mapGet bus.handlers name).getD []).map (fun r => r.handler) ++
          ((bus.wildcardHandlers.filter
            (fun r => filterPasses r.filter name d)).take (j + 1)).map
            (fun r => r.handler) ∧
      ∃ hh, (emit env bus name d ts).error = some (.handlerError hh)) := by
  refine ⟨?_, ?_, ?_⟩
  · intro hcatch
    have h := emit_complete_spec env bus name d ts hvalid (Or.inl hcatch)
    exact ⟨h.1, h.2.1⟩
  · intro hcatch i hfind
    have hlive_ne : (mapGet bus.handlers name).getD [] ≠ [] := by
      intro hl
      rw [hl] at hfind
      simp [List.findIdx?] at hfind
    have hns : (!bus.options.allowEmptyEvents &&
        ((mapGet bus.handlers name).getD []).isEmpty &&
        bus.wildcardHandlers.isEmpty) = false := by
      have h0 : ((mapGet bus.handlers name).getD []).isEmpty = false := by
        simpa [List.isEmpty_iff] using hlive_ne
      simp [h0]
    rw [emit_unfold_valid env bus name d ts hvalid]
    simp only [hns, Bool.false_eq_true, if_false]
    have habort := runNamedHandlers_abort env bus.options
      ((mapGet bus.handlers name).getD []) name d
      ((mapGet bus.handlers name).getD []) initialPass hcatch i hfind
    obtain ⟨hh, hsome⟩ := Option.isSome_iff_exists.mp habort.2
    simp only [hsome]
    refine ⟨?_, ⟨hh, rfl⟩⟩
    rw [habort.1]
    simp [initialPass]
  · intro hcatch hnone j hfind
    have hnothrow : ∀ r ∈ (mapGet bus.handlers name).getD [],
        env.throwsOn r.handler d = false := by
      intro r hr
      exact List.findIdx?_eq_none_iff.mp hnone r hr
    have hst1eq := runNamedHandlers_complete env bus.options
      ((mapGet bus.handlers name).getD []) name d
      ((mapGet bus.handlers name).getD []) initialPass (Or.inr hnothrow)
    have hwild_ne : bus.wildcardHandlers ≠ [] := by
      intro hw
      rw [hw] at hfind
      simp [List.findIdx?] at hfind
    have hns : (!bus.options.allowEmptyEvents &&
        ((mapGet bus.handlers name).getD []).isEmpty &&
        bus.wildcardHandlers.isEmpty) = false := by
      have h0 : bus.wildcardHandlers.isEmpty = false := by
        simpa [List.isEmpty_iff] using hwild_ne
      simp [h0]
    rw [emit_unfold_valid env bus name d ts hvalid]
    simp only [hns, Bool.false_eq_true, if_false]
    have hab1 : (runNamedHandlers env bus.options
        ((mapGet bus.handlers name).getD []) name d
        ((mapGet bus.handlers name).getD []) initialPass).aborted = none := by
      rw [hst1eq]
      rfl
    have habort := runWildcardHandlers_abort env bus.options
      bus.wildcardHandlers name d bus.wildcardHandlers
      (runNamedHandlers env bus.options
        ((mapGet bus.handlers name).getD []) name d
        ((mapGet bus.handlers name).getD []) initialPass) hcatch j hfind
    obtain ⟨hh, hsome⟩ := Option.isSome_iff_exists.mp habort.2
    simp only [hab1, hsome]
    refine ⟨?_, ⟨hh, rfl⟩⟩
    rw [habort.1, hst1eq]
    simp [initialPass]

/-- C4 (witness): on the `catchErrors=false` bus with handlers 1 (throwing)
and 2, the emit invokes only handler 1 and the error propagates; on the
default (`catchErrors=true`) twin, both handlers run and the throw is reported
with the event name. -/
theorem c4_witness :
    ((emit throwEnv c4Bus "e" none 0).trace = [1] ∧
      ∃ hh, (emit throwEnv c4Bus "e" none 0).error =
        some (.handlerError hh)) ∧
    (emit throwEnv c4cBus "e" none 0).trace = [1, 2] ∧
    (emit throwEnv c4cBus "e" none 0).reports = [(1, "e")] := by
  have h4 := c4_error_policy throwEnv c4Bus "e" none 0 (by decide)
  have h4c := c4_error_policy throwEnv c4cBus "e" none 0 (by decide)
  have hb := h4.2.1 rfl 0 rfl
  have hc := h4c.1 rfl
  refine ⟨⟨?_, hb.2⟩, ?_, ?_⟩
  · rw [hb.1]
    rfl
  · rw [hc.1]
    rfl
  · rw [hc.2]
    rfl

/-- C6: restoring a fresh instance from a snapshot of a bus whose buckets are
all non-empty (as in every state the public API can build without a prior
restore) reproduces the set of subscribed event names and the history
verbatim, but every bucket of the restored instance is empty and no wildcard
record is restored, so emitting anything on it invokes zero handlers. -/
theorem c6_snapshot_roundtrip (orig : EventBus Data) (inp : OptionsInput)
    (hne : ∀ n bkt, (n, bkt) ∈ orig.handlers → bkt ≠ []) :
    (∀ n, n ∈ eventNames
        (restoreFromSnapshot (mkEventBus Data inp) (getSnapshot orig)) ↔
      n ∈ eventNames orig) ∧
    getHistory (restoreFromSnapshot (mkEventBus Data inp)
      (getSnapshot orig)) = getHistory orig ∧
    (∀ (env : HandlerBehavior Data) (name : String) (d : Option Data)
      (ts : Nat),
      (emit env (restoreFromSnapshot (mkEventBus Data inp)
        (getSnapshot orig)) name d ts).trace = []) := by
  have hhandlers : (restoreFromSnapshot (mkEventBus Data inp)
      (getSnapshot orig)).handlers =
      orig.handlers.map (fun p => (p.1, ([] : List HandlerRecord))) := by
    simp only [restoreFromSnapshot, getSnapshot, clearBus]
    have hall : ∀ p ∈ (orig.handlers.map fun q => (q.1, q.2.length)),
        (decide (0 < p.2)) = true := by
      intro p hp
      obtain ⟨q, hq, rfl⟩ := List.mem_map.mp hp
      simpa using List.length_pos.mpr (hne q.1 q.2 (by simpa using hq))
    rw [List.filter_eq_self.mpr hall, List.map_map]
    rfl
  have hwild : (restoreFromSnapshot (mkEventBus Data inp)
      (getSnapshot orig)).wildcardHandlers = [] := rfl
  have hlive : ∀ name, (mapGet (restoreFromSnapshot (mkEventBus Data inp)
      (getSnapshot orig)).handlers name).getD [] = [] := by
    intro name
    cases hget : mapGet (restoreFromSnapshot (mkEventBus Data inp)
        (getSnapshot orig)).handlers name with
    | none => rfl
    | some b =>
      have hmem := mapGet_mem _ _ _ hget
      rw [hhandlers] at hmem
      obtain ⟨q, -, hqe⟩ := List.mem_map.mp hmem
      injection hqe with h1 h2
      simp [← h2]
  refine ⟨?_, rfl, ?_⟩
  · intro n
    have : eventNames (restoreFromSnapshot (mkEventBus Data inp)
        (getSnapshot orig)) = eventNames orig := by
      rw [eventNames, hhandlers, List.map_map]
      rfl
    rw [this]
  · intro env name d ts
    by_cases hv : validEventName name = true
    · rw [emit_unfold_valid env _ name d ts hv]
      simp only [hlive name, hwild, runNamedHandlers, runWildcardHandlers,
        initialPass]
      split <;> rfl
    · rw [emit_invalid env _ name d ts (by simpa using hv)]

/-- C6 (witness): round trip of the one-subscription bus. -/
theorem c6_witness :
    ("e" ∈ eventNames (restoreFromSnapshot (mkEventBus Unit defaultInput)
      (getSnapshot c2BusA)) ↔ "e" ∈ eventNames c2BusA) ∧
    getHistory (restoreFromSnapshot (mkEventBus Unit defaultInput)
      (getSnapshot c2BusA)) = getHistory c2BusA ∧
    (emit quietU (restoreFromSnapshot (mkEventBus Unit defaultInput)
      (getSnapshot c2BusA)) "e" none 5).trace = [] := by
  have h := c6_snapshot_roundtrip c2BusA defaultInput
    (by
      intro n bkt hmem
      have : c2BusA.handlers = [("e", [⟨1, PNormal, false⟩])] := rfl
      rw [this] at hmem
      simp only [List.mem_singleton] at hmem
      injection hmem with h1 h2
      simp [h2])
  exact ⟨h.1 "e", h.2.1, h.2.2 quietU "e" none 5⟩

/-- C7 (counterexample): subscribe on one name, then restore the bus from its
own snapshot — a state reachable through the public operations. The restored
state lists the name in `eventNames()` yet its bucket is the empty list, so an
operation does leave an empty bucket behind. -/
theorem c7_counterexample :
    Reachable Unit defaultInput c7Restored ∧
    eventNames c7Restored = ["a"] ∧
    mapGet c7Restored.handlers "a" = some [] := by
  refine ⟨?_, rfl, rfl⟩
  have h0 : ReachableAux Unit defaultInput true c7Orig :=
    .stepOn "a" 1 PNormal .init rfl
  exact .stepRestore rfl h0 h0

/-- C7 (amended): in every state reachable without `restoreFromSnapshot`,
every name listed by `eventNames()` has a non-empty bucket — `off` and the
once-pruning of `emit` delete a bucket key as soon as the bucket empties.
`restoreFromSnapshot` is the sole exception: it deliberately creates empty
buckets (name taxonomy without handler bindings). -/
theorem c7_no_empty_buckets (inp : OptionsInput) (b : EventBus Data)
    (hr : ReachableNoRestore Data inp b) :
    ∀ n, n ∈ eventNames b →
      ∃ bkt, (n, bkt) ∈ b.handlers ∧ bkt ≠ [] := by
  intro n hn
  obtain ⟨p, hp, rfl⟩ := List.mem_map.mp hn
  exact ⟨p.2, by simpa using hp,
    reachableNR_buckets_nonempty inp b hr p.1 p.2 (by simpa using hp)⟩

/-- C7 (witness): the pre-restore bus is restore-free reachable, and its one
listed name has a non-empty bucket. -/
theorem c7_witness :
    ∃ bkt, ("a", bkt) ∈ c7Orig.handlers ∧ bkt ≠ [] := by
  have h0 : ReachableAux Unit defaultInput false c7Orig :=
    .stepOn "a" 1 PNormal .init rfl
  exact c7_no_empty_buckets defaultInput c7Orig h0 "a" (by decide)

/-- Recording a list of entries into an empty history keeps exactly the most
recent `maxH` of them, oldest first. -/
theorem recordEvent_foldl (maxH : Nat) (es : List (HistoryEntry Data)) :
    es.foldl (fun h e => recordEvent h maxH e.event e.data e.timestamp) [] =
      es.drop (es.length - maxH) := by
  induction es using List.reverseRecOn with
  | nil => simp
  | append_singleton es e ih =>
    rw [List.foldl_append, ih]
    simp only [List.foldl_cons, List.foldl_nil]
    have hlen : (es.drop (es.length - maxH)).length =
        es.length - (es.length - maxH) := List.length_drop _ _
    unfold recordEvent
    by_cases hk : es.length < maxH
    · have hd0 : es.length - maxH = 0 := by omega
      have hcond : ¬ (maxH <
          ((es.drop (es.length - maxH)) ++
            [(⟨e.event, e.data, e.timestamp⟩ : HistoryEntry Data)]).length)
          := by
        simp only [List.length_append, List.length_singleton, hlen]
        omega
      rw [if_neg hcond]
      simp only [hd0, List.drop_zero]
      have hd1 : (es ++ [e]).length - maxH = 0 := by
        simp only [List.length_append, List.length_singleton]
        omega
      rw [hd1, List.drop_zero]
    · have hm : maxH ≤ es.length := by omega
      have hcond : maxH <
          ((es.drop (es.length - maxH)) ++
            [(⟨e.event, e.data, e.timestamp⟩ : HistoryEntry Data)]).length
          := by
        simp only [List.length_append, List.length_singleton, hlen]
        omega
      rw [if_pos hcond]
      by_cases h0 : maxH = 0
      · subst h0
        simp only [Nat.sub_zero, List.drop_length, List.nil_append]
        simp
      · have hne : es.drop (es.length - maxH) ≠ [] := by
          intro hcon
          have := congrArg List.length hcon
          rw [hlen] at this
          simp at this
          omega
        obtain ⟨a, as, has⟩ := List.exists_cons_of_ne_nil hne
        rw [has]
        simp only [List.cons_append, List.tail_cons]
        have htl : as = es.drop (es.length - maxH + 1) := by
          have := congrArg List.tail has
          simp only [List.tail_cons] at this
          rw [← this, List.tail_drop]
        rw [htl]
        have hd2 : (es ++ [e]).length - maxH = es.length - maxH + 1 := by
          simp only [List.length_append, List.length_singleton]
          omega
        rw [hd2, List.drop_append_of_le_length (by omega)]

/-- Emitting a sequence of valid names folds `recordEvent` over the history,
and never changes `maxHistorySize`. -/
theorem emitSeq_history (env : HandlerBehavior Data) (b : EventBus Data)
    (es : List (String × Option Data × Nat))
    (hv : ∀ e ∈ es, validEventName e.1 = true) :
    (emitSeq env b es).eventHistory =
      es.foldl (fun h e => recordEvent h b.maxHistorySize e.1 e.2.1 e.2.2)
        b.eventHistory ∧
    (emitSeq env b es).maxHistorySize = b.maxHistorySize := by
  induction es generalizing b with
  | nil => exact ⟨rfl, rfl⟩
  | cons e rest ih =>
    have hve : validEventName e.1 = true := hv e (List.mem_cons_self _ _)
    have hrest : ∀ x ∈ rest, validEventName x.1 = true :=
      fun x hx => hv x (List.mem_cons_of_mem _ hx)
    have hmax := emit_maxHistorySize env b e.1 e.2.1 e.2.2
    have hhist := emit_history env b e.1 e.2.1 e.2.2 hve
    have ihb := ih (emit env b e.1 e.2.1 e.2.2).bus hrest
    refine ⟨?_, ?_⟩
    · rw [emitSeq] at *
      rw [ihb.1, hhist, hmax]
      rfl
    · rw [emitSeq] at *
      rw [ihb.2, hmax]

/-- C8: (i) in every reachable state of a bus the history length never exceeds
`maxHistorySize`; (ii) starting from an empty history, emitting any sequence
of valid events leaves exactly the most recent `maxHistorySize` entries,
oldest first — each overflow evicts precisely the single oldest entry
(`recordEvent` drops the head on overflow, never the newest). -/
theorem c8_history_bound :
    (∀ (Data : Type) (inp : OptionsInput) (b : EventBus Data),
      Reachable Data inp b →
      b.eventHistory.length ≤ b.maxHistorySize) ∧
    (∀ (Data : Type) (env : HandlerBehavior Data) (b : EventBus Data)
      (es : List (String × Option Data × Nat)),
      b.eventHistory = [] →
      (∀ e ∈ es, validEventName e.1 = true) →
      (emitSeq env b es).eventHistory =
        (es.map fun e =>
          (⟨e.1, e.2.1, e.2.2⟩ : HistoryEntry Data)).drop
          (es.length - b.maxHistorySize)) := by
  constructor
  · intro Data inp b hr
    exact reachable_history_le inp true b hr
  · intro Data env b es hemp hv
    have h := (emitSeq_history env b es hv).1
    rw [h, hemp]
    have hfold : es.foldl
        (fun h e => recordEvent h b.maxHistorySize e.1 e.2.1 e.2.2)
        ([] : List (HistoryEntry Data)) =
        (es.map fun e => (⟨e.1, e.2.1, e.2.2⟩ : HistoryEntry Data)).foldl
          (fun h e => recordEvent h b.maxHistorySize e.event e.data
            e.timestamp) [] := by
      rw [List.foldl_map]
    rw [hfold, recordEvent_foldl]
    simp

/-- C8 (witness): a bus bounded at two entries keeps exactly the last two of
three emitted events, and a concrete reachable state satisfies the bound. -/
theorem c8_witness :
    (emitSeq quietU (mkEventBus Unit ⟨none, none, none, some 2⟩)
      [("a", none, 0), ("b", none, 1), ("c", none, 2)]).eventHistory =
      [⟨"b", none, 1⟩, ⟨"c", none, 2⟩] ∧
    c7Orig.eventHistory.length ≤ c7Orig.maxHistorySize := by
  constructor
  · have h := c8_history_bound.2 Unit quietU
      (mkEventBus Unit ⟨none, none, none, some 2⟩)
      [("a", none, 0), ("b", none, 1), ("c", none, 2)] rfl (by decide)
    rw [h]
    rfl
  · exact c8_history_bound.1 Unit defaultInput c7Orig
      (.stepOn "a" 1 PNormal .init rfl)

/-- With a positive bound, the entry just recorded is the last history entry.
-/
theorem recordEvent_getLast? (hist : List (HistoryEntry Data)) (maxH : Nat)
    (ev : String) (d : Option Data) (ts : Nat) (h : 1 ≤ maxH) :
    (recordEvent hist maxH ev d ts).getLast? =
      some ⟨ev, d, ts⟩ := by
  unfold recordEvent
  by_cases hc : maxH <
      (hist ++ [(⟨ev, d, ts⟩ : HistoryEntry Data)]).length
  · rw [if_pos hc]
    cases hist with
    | nil =>
      simp at hc
      omega
    | cons x rest =>
      simp only [List.cons_append, List.tail_cons]
      exact List.getLast?_concat _
  · rw [if_neg hc]
    exact List.getLast?_concat _

/-- C9: for a valid name, the history entry for the call is installed no
matter how the pass ends (so it is present when the call then fails with
`NoSubscribers` or a handler error), and — when the bound is positive, as the
constructor guarantees — it sits at the end of the history; for an invalid
name `emit` raises `InvalidArgument`, the state is untouched and no entry is
appended. -/
theorem c9_history_records_attempts (env : HandlerBehavior Data)
    (bus : EventBus Data) (name : String) (d : Option Data) (ts : Nat) :
    (validEventName name = true →
      (emit env bus name d ts).bus.eventHistory =
        recordEvent bus.eventHistory bus.maxHistorySize name d ts ∧
      (1 ≤ bus.maxHistorySize →
        (emit env bus name d ts).bus.eventHistory.getLast? =
          some ⟨name, d, ts⟩)) ∧
    (validEventName name = false →
      emit env bus name d ts = ⟨bus, [], [], [], some .invalidArgument⟩) := by
  constructor
  · intro hv
    refine ⟨emit_history env bus name d ts hv, ?_⟩
    intro hmax
    rw [emit_history env bus name d ts hv]
    exact recordEvent_getLast? _ _ _ _ _ hmax
  · intro hv
    exact emit_invalid env bus name d ts hv

/-- C9 (witness): an emit that fails with `NoSubscribers` still appends its
entry (it is the last history entry), and an emit of the empty name fails with
`InvalidArgument` leaving the bus untouched. -/
theorem c9_witness :
    (emit quietU c1wBus "a" none 3).error = some .noSubscribers ∧
    (emit quietU c1wBus "a" none 3).bus.eventHistory.getLast? =
      some ⟨"a", none, 3⟩ ∧
    emit quietU c1wBus "" none 3 =
      ⟨c1wBus, [], [], [], some .invalidArgument⟩ := by
  have h := c9_history_records_attempts quietU c1wBus "a" none 3
  have h2 := c9_history_records_attempts quietU c1wBus "" none 3
  exact ⟨rfl, (h.1 (by decide)).2 (by decide), h2.2 (by decide)⟩

/-- C10: `hasListeners(name)` is true as soon as any wildcard subscriber
exists — the named bucket may be absent and the wildcard's filter is never
consulted — so it can be true while `listenerCount(name)` is 0 and an emit of
the name invokes no handler at all. -/
theorem c10_hasListeners_wildcard :
    (∀ (Data : Type) (bus : EventBus Data) (name : String),
      validEventName name = true → bus.wildcardHandlers ≠ [] →
      hasListeners bus name = .ok true) ∧
    hasListeners c10Bus "a" = .ok true ∧
    listenerCount c10Bus "a" = .ok 0 ∧
    (emit quietU c10Bus "a" none 0).trace = [] ∧
    (emit quietU c10Bus "a" none 0).error = none := by
  refine ⟨?_, rfl, rfl, rfl, rfl⟩
  intro Data bus name hv hne
  simp only [hasListeners, hv, Bool.not_true, Bool.false_eq_true, if_false]
  have : (decide (bus.wildcardHandlers.length > 0)) = true := by
    simpa using List.length_pos.mpr hne
  rw [this, Bool.or_true]

/-- C10 (witness): the general wildcard-existence part applied to the concrete
rejecting-filter bus. -/
theorem c10_witness : hasListeners c10Bus "b" = .ok true := by
  refine c10_hasListeners_wildcard.1 Unit c10Bus "b" (by decide) ?_
  have hlen : c10Bus.wildcardHandlers.length = 1 := by decide
  intro hcon
  rw [hcon] at hlen
  simp at hlen

end EventBusCommon

